import Mathlib

/-!
Verification of the C2 type-lattice engine (`src/hotspot/share/opto/type.cpp`).

This development shallowly embeds the fragment of the HotSpot C2 type lattice
that the claims under scrutiny are about:

* the simple singleton types handled by the base `Type::xmeet`
  (`Control`, `Top`, `Abio`, `Memory`, `Bottom`, the `HalfFloat`/`Float`/`Double`
  top and bottom elements) together with the floating-point constant types
  `TypeH`/`TypeF`/`TypeD` and the `AnyPtr` pointer type `TypePtr`
  (null-ness `PTR`, offset, speculative part, inline depth);
* the hash-consing table `Type::hashcons` and the dual computation `xdual`;
* the bounded integer domain entry points `TypeInt::make_or_top`,
  `TypeInt::make` and `TypeInt::contains`;
* the sorted interface sets `TypeInterfaces::union_with` /
  `intersection_with`;
* the instance-pointer meet `TypePtr::meet_instptr`.

C++ classes become Lean inductives/structures, virtual dispatch becomes a match
on the representation tag, and fatal paths (`typerr` / `ShouldNotReachHere` /
failing `assert`) become `none` of an `Option` result.  Pointer identity of
hash-consed types is structural equality in Lean (the interning table
guarantees structurally equal types are pointer-identical, which is exactly
what the table model below proves).

Machine floats only enter the lattice through the bit patterns of constants
(`TypeF::eq`/`TypeF::xmeet` compare `jint_cast` images), so float constants
are embedded by their IEEE bit pattern, e.g. `+0.0f` is `0x00000000` and
`-0.0f` is `0x80000000`.

`type.hpp` and `rangeinference.hpp/cpp` are not part of the analyzed sources;
the handful of one-line helpers they contribute (`PTR` enum and its meet
table is in `type.cpp` itself; `above_centerline`/`below_centerline`,
`KnownBits::is_satisfied_by`, `TypeIntPrototype::canonicalize_constraints`)
are modelled from the specification where noted.
-/

/-- Null-ness lattice of pointer types (`TypePtr::PTR` — the six-element
lattice Top, AnyNull, Constant, Null, NotNull, Bottom). -/
inductive PTR where
  | TopPTR
  | AnyNull
  | Constant
  | Null
  | NotNull
  | BotPTR
deriving DecidableEq, Repr

/-- Meet over the PTR enum (the 6x6 table `TypePtr::ptr_meet`; row is the
receiver `_ptr`, column the argument). -/
def TypePtr.ptr_meet : PTR → PTR → PTR
  | .TopPTR,   q          => q
  | .AnyNull,  .TopPTR    => .AnyNull
  | .AnyNull,  .AnyNull   => .AnyNull
  | .AnyNull,  .Constant  => .Constant
  | .AnyNull,  .Null      => .BotPTR
  | .AnyNull,  .NotNull   => .NotNull
  | .AnyNull,  .BotPTR    => .BotPTR
  | .Constant, .TopPTR    => .Constant
  | .Constant, .AnyNull   => .Constant
  | .Constant, .Constant  => .Constant
  | .Constant, .Null      => .BotPTR
  | .Constant, .NotNull   => .NotNull
  | .Constant, .BotPTR    => .BotPTR
  | .Null,     .TopPTR    => .Null
  | .Null,     .Null      => .Null
  | .Null,     _          => .BotPTR
  | .NotNull,  .TopPTR    => .NotNull
  | .NotNull,  .AnyNull   => .NotNull
  | .NotNull,  .Constant  => .NotNull
  | .NotNull,  .Null      => .BotPTR
  | .NotNull,  .NotNull   => .NotNull
  | .NotNull,  .BotPTR    => .BotPTR
  | .BotPTR,   _          => .BotPTR

/-- Dual over the PTR enum (`TypePtr::ptr_dual`): the table
`{ BotPTR, NotNull, Constant, Null, AnyNull, TopPTR }` indexed by
`TopPTR, AnyNull, Constant, Null, NotNull, BotPTR`. -/
def TypePtr.ptr_dual : PTR → PTR
  | .TopPTR   => .BotPTR
  | .AnyNull  => .NotNull
  | .Constant => .Constant
  | .Null     => .Null
  | .NotNull  => .AnyNull
  | .BotPTR   => .TopPTR

/-- Modelled from the spec: `above_centerline(PTR)` (declared in the absent
`type.hpp`).  The spec's pointer frame puts `Top` and `AnyNull` above the
centerline of the six-element null-ness lattice; this also matches the
`ptr_dual` table, which exchanges the above-centerline states with the
below-centerline ones and fixes `Constant` and `Null`. -/
def above_centerline (p : PTR) : Bool :=
  p = .TopPTR || p = .AnyNull

/-- Modelled from the spec: `below_centerline(PTR)` (declared in the absent
`type.hpp`); `NotNull` and `BotPTR` sit below the centerline. -/
def below_centerline (p : PTR) : Bool :=
  p = .NotNull || p = .BotPTR

/-- Pointer offsets.  `type.cpp` represents them as an `int` with the two
reserved sentinels `OffsetTop` and `OffsetBot`; the sentinels are embedded as
their own constructors and every other machine int as `ofs`. -/
inductive TOffset where
  | top
  | bot
  | ofs (n : Int)
deriving DecidableEq, Repr

/-- Offset meet (`TypePtr::meet_offset`): either `TOP` offset returns the
other offset, different offsets fall to the `BOTTOM` offset, equal offsets
are preserved. -/
def TypePtr.meet_offset : TOffset → TOffset → TOffset
  | .top, o => o
  | o, .top => o
  | o1, o2 => if o1 = o2 then o1 else .bot

/-- Offset dual (`TypePtr::dual_offset`): maps `TOP` into `BOTTOM` and
conversely, everything else into itself. -/
def TypePtr.dual_offset : TOffset → TOffset
  | .top => .bot
  | .bot => .top
  | .ofs n => .ofs n

/-- The embedded fragment of the `Type` hierarchy.  Simple singleton types
carry no payload; `halfFloatCon`/`floatCon`/`doubleCon` are `TypeH`/`TypeF`/
`TypeD` constants identified by their bit pattern (`jshort`/`jint`/`jlong`
casts are all the code ever compares); `anyPtr` is a `TypePtr` with its
null-ness, offset, optional speculative type and inline depth
(`_ptr`, `_offset`, `_speculative`, `_inline_depth`). -/
inductive Ty where
  | control
  | top
  | abio
  | memory
  | bottom
  | halfFloatTop
  | halfFloatCon (bits : Nat)
  | halfFloatBot
  | floatTop
  | floatCon (bits : Nat)
  | floatBot
  | doubleTop
  | doubleCon (bits : Nat)
  | doubleBot
  | anyPtr (ptr : PTR) (offset : TOffset) (speculative : Option Ty) (inlineDepth : Int)
deriving Repr

/-- Structural equality of embedded types.  This is the Lean rendering of the
tag-dispatched `Type::eq` / `Type::equals` used by the hash-consing table:
simple types are equal when their tags agree, constants compare their bit
patterns (`TypeH::eq`/`TypeF::eq`/`TypeD::eq`), pointers compare null-ness,
offset, speculative part and inline depth (`TypePtr::eq`). -/
def Ty.beq : Ty → Ty → Bool
  | .control, .control => true
  | .top, .top => true
  | .abio, .abio => true
  | .memory, .memory => true
  | .bottom, .bottom => true
  | .halfFloatTop, .halfFloatTop => true
  | .halfFloatCon a, .halfFloatCon b => a == b
  | .halfFloatBot, .halfFloatBot => true
  | .floatTop, .floatTop => true
  | .floatCon a, .floatCon b => a == b
  | .floatBot, .floatBot => true
  | .doubleTop, .doubleTop => true
  | .doubleCon a, .doubleCon b => a == b
  | .doubleBot, .doubleBot => true
  | .anyPtr p1 o1 none d1, .anyPtr p2 o2 none d2 =>
      p1 == p2 && o1 == o2 && d1 == d2
  | .anyPtr p1 o1 (some s1) d1, .anyPtr p2 o2 (some s2) d2 =>
      p1 == p2 && o1 == o2 && d1 == d2 && Ty.beq s1 s2
  | _, _ => false

theorem Ty.beq_iff : ∀ a b : Ty, (Ty.beq a b = true) ↔ a = b
  | .control, b => by cases b <;> simp [Ty.beq]
  | .top, b => by cases b <;> simp [Ty.beq]
  | .abio, b => by cases b <;> simp [Ty.beq]
  | .memory, b => by cases b <;> simp [Ty.beq]
  | .bottom, b => by cases b <;> simp [Ty.beq]
  | .halfFloatTop, b => by cases b <;> simp [Ty.beq]
  | .halfFloatCon a, b => by cases b <;> simp [Ty.beq]
  | .halfFloatBot, b => by cases b <;> simp [Ty.beq]
  | .floatTop, b => by cases b <;> simp [Ty.beq]
  | .floatCon a, b => by cases b <;> simp [Ty.beq]
  | .floatBot, b => by cases b <;> simp [Ty.beq]
  | .doubleTop, b => by cases b <;> simp [Ty.beq]
  | .doubleCon a, b => by cases b <;> simp [Ty.beq]
  | .doubleBot, b => by cases b <;> simp [Ty.beq]
  | .anyPtr p1 o1 s1 d1, b => by
      cases b with
      | anyPtr p2 o2 s2 d2 =>
        match s1, s2 with
        | none, none =>
          simp [Ty.beq]
          tauto
        | none, some s2 => simp [Ty.beq]
        | some s1, none => simp [Ty.beq]
        | some s1, some s2 =>
          have ih := Ty.beq_iff s1 s2
          simp [Ty.beq, ih]
          tauto
      | _ => simp [Ty.beq]

instance : DecidableEq Ty := fun a b =>
  decidable_of_iff (Ty.beq a b = true) (Ty.beq_iff a b)

/-- Speculative part accessor (`TypePtr::speculative`, `nullptr` on every
non-pointer type). -/
def Ty.speculative : Ty → Option Ty
  | .anyPtr _ _ s _ => s
  | _ => none

/-- Inline-depth accessor, defined only on pointer types
(`TypePtr::inline_depth`). -/
def Ty.inlineDepth : Ty → Option Int
  | .anyPtr _ _ _ d => some d
  | _ => none

/-- Tag test for the pointer family of the fragment (`Type::isa_ptr`). -/
def Ty.isa_ptr : Ty → Bool
  | .anyPtr _ _ _ _ => true
  | _ => false

/-- Same type without a speculative part (`TypePtr::remove_speculative`;
the base `Type::remove_speculative` returns the type unchanged). -/
def Ty.remove_speculative : Ty → Ty
  | .anyPtr p o _ d => .anyPtr p o none d
  | t => t

/-- Dual of the speculative part (`TypePtr::dual_speculative`); the stored
`_dual` of a canonical type is its `xdual`, computed below. -/
def Ty.xdual : Ty → Ty
  | .control => .control
  | .top => .bottom
  | .abio => .abio
  | .memory => .memory
  | .bottom => .top
  | .halfFloatTop => .halfFloatBot
  | .halfFloatCon h => .halfFloatCon h
  | .halfFloatBot => .halfFloatTop
  | .floatTop => .floatBot
  | .floatCon f => .floatCon f
  | .floatBot => .floatTop
  | .doubleTop => .doubleBot
  | .doubleCon d => .doubleCon d
  | .doubleBot => .doubleTop
  | .anyPtr p o none d =>
      .anyPtr (TypePtr.ptr_dual p) (TypePtr.dual_offset o) none (-d)
  | .anyPtr p o (some s) d =>
      .anyPtr (TypePtr.ptr_dual p) (TypePtr.dual_offset o) (some s.xdual) (-d)

theorem TypePtr.ptr_dual_invol (p : PTR) : TypePtr.ptr_dual (TypePtr.ptr_dual p) = p := by
  cases p <;> rfl

theorem TypePtr.dual_offset_invol (o : TOffset) :
    TypePtr.dual_offset (TypePtr.dual_offset o) = o := by
  cases o <;> rfl

/-- The per-representation dual is an involution: the `xdual` tables of the
simple types pair `Top` with `Bottom` and each `Float`/`Double`/`HalfFloat`
top with the corresponding bottom, constants are self-dual (`TypeF::xdual`
returns `this`), and the pointer dual inverts each field. -/
theorem Ty.xdual_invol : ∀ t : Ty, t.xdual.xdual = t
  | .control | .top | .abio | .memory | .bottom => rfl
  | .halfFloatTop | .halfFloatCon _ | .halfFloatBot => rfl
  | .floatTop | .floatCon _ | .floatBot => rfl
  | .doubleTop | .doubleCon _ | .doubleBot => rfl
  | .anyPtr p o none d => by
      simp [Ty.xdual, TypePtr.ptr_dual_invol, TypePtr.dual_offset_invol]
  | .anyPtr p o (some s) d => by
      simp [Ty.xdual, TypePtr.ptr_dual_invol, TypePtr.dual_offset_invol,
        Ty.xdual_invol s]

/-- Float-constant meet (`TypeF::xmeet`, receiver a `FloatCon` with bit
pattern `f`): pointers and every other numeric family fall to `BOTTOM`,
`FloatBot` absorbs, two float constants compare bitwise (`jint_cast`) and
fall to the generic `FLOAT` when the patterns differ, `Top`/`FloatTop`
return the constant, anything else is a fatal type error. -/
def TypeF.xmeet (f : Nat) (t : Ty) : Option Ty :=
  if t = .floatCon f then some (.floatCon f)
  else
    match t with
    | .anyPtr _ _ _ _ => some .bottom
    | .halfFloatTop => some .bottom
    | .halfFloatCon _ => some .bottom
    | .halfFloatBot => some .bottom
    | .doubleTop => some .bottom
    | .doubleCon _ => some .bottom
    | .doubleBot => some .bottom
    | .bottom => some .bottom
    | .floatBot => some .floatBot
    | .floatCon g => if f ≠ g then some .floatBot else some (.floatCon f)
    | .top => some (.floatCon f)
    | .floatTop => some (.floatCon f)
    | _ => none

/-- Half-float-constant meet (`TypeH::xmeet`), same shape as `TypeF::xmeet`
one family over. -/
def TypeH.xmeet (hf : Nat) (t : Ty) : Option Ty :=
  if t = .halfFloatCon hf then some (.halfFloatCon hf)
  else
    match t with
    | .anyPtr _ _ _ _ => some .bottom
    | .floatTop => some .bottom
    | .floatCon _ => some .bottom
    | .floatBot => some .bottom
    | .doubleTop => some .bottom
    | .doubleCon _ => some .bottom
    | .doubleBot => some .bottom
    | .bottom => some .bottom
    | .halfFloatBot => some .halfFloatBot
    | .halfFloatCon g => if hf ≠ g then some .halfFloatBot else some (.halfFloatCon hf)
    | .top => some (.halfFloatCon hf)
    | .halfFloatTop => some (.halfFloatCon hf)
    | _ => none

/-- Double-constant meet (`TypeD::xmeet`), bit patterns compared via
`jlong_cast`. -/
def TypeD.xmeet (d : Nat) (t : Ty) : Option Ty :=
  if t = .doubleCon d then some (.doubleCon d)
  else
    match t with
    | .anyPtr _ _ _ _ => some .bottom
    | .halfFloatTop => some .bottom
    | .halfFloatCon _ => some .bottom
    | .halfFloatBot => some .bottom
    | .floatTop => some .bottom
    | .floatCon _ => some .bottom
    | .floatBot => some .bottom
    | .bottom => some .bottom
    | .doubleBot => some .doubleBot
    | .doubleCon g => if d ≠ g then some .doubleBot else some (.doubleCon d)
    | .top => some (.doubleCon d)
    | .doubleTop => some (.doubleCon d)
    | _ => none

/-- Body shared by the `HalfFloatTop`/`HalfFloatBot` cases of the base
`Type::xmeet` switch (the `case HalfFloatTop:` arm falls through into
`case HalfFloatBot:`). -/
def Ty.meet_halfFloatBot_case (a : Ty) : Option Ty :=
  if a = .halfFloatBot ∨ a = .halfFloatTop then some .halfFloatBot
  else if a = .floatBot ∨ a = .floatTop then some .bottom
  else if a = .doubleTop ∨ a = .doubleBot then some .bottom
  else none

/-- Body shared by the `FloatTop`/`FloatBot` cases of the base
`Type::xmeet` switch. -/
def Ty.meet_floatBot_case (a : Ty) : Option Ty :=
  if a = .floatBot ∨ a = .floatTop then some .floatBot
  else if a = .halfFloatTop ∨ a = .halfFloatBot then some .bottom
  else if a = .doubleTop ∨ a = .doubleBot then some .bottom
  else none

/-- Body shared by the `DoubleTop`/`DoubleBot` cases of the base
`Type::xmeet` switch. -/
def Ty.meet_doubleBot_case (a : Ty) : Option Ty :=
  if a = .doubleBot ∨ a = .doubleTop then some .doubleBot
  else if a = .halfFloatTop ∨ a = .halfFloatBot then some .bottom
  else if a = .floatTop ∨ a = .floatBot then some .bottom
  else none

/-- Base-class meet (`Type::xmeet`), the receiver being one of the simple
types: identical representations meet to themselves, `Top` absorbs to the
other operand, `Bottom` absorbs to `BOTTOM`, then the switch on the
argument's tag either delegates to the more specific operand's meet
(the `return t->xmeet(this)` cases, rendered as direct calls to the
overriding implementation), resolves the float families, requires `Control`/
`Abio`/`Memory` to match exactly, or signals a fatal type error
(`typerr`, note that the switch has no case for `AnyPtr`). -/
def Ty.xmeet_base (a b : Ty) : Option Ty :=
  if a = b then some a
  else if a = .top then some b
  else if a = .bottom then some .bottom
  else
    match b with
    | .halfFloatCon h => TypeH.xmeet h a
    | .floatCon f => TypeF.xmeet f a
    | .doubleCon d => TypeD.xmeet d a
    | .anyPtr _ _ _ _ => none
    | .bottom => some .bottom
    | .halfFloatTop =>
        if a = .halfFloatTop then some a else Ty.meet_halfFloatBot_case a
    | .halfFloatBot => Ty.meet_halfFloatBot_case a
    | .floatTop =>
        if a = .floatTop then some a else Ty.meet_floatBot_case a
    | .floatBot => Ty.meet_floatBot_case a
    | .doubleTop =>
        if a = .doubleTop then some a else Ty.meet_doubleBot_case a
    | .doubleBot => Ty.meet_doubleBot_case a
    | .control => if a = .control then some a else none
    | .abio => if a = .abio then some a else none
    | .memory => if a = .memory then some a else none
    | .top => some a

/-- Meet of two inline depths (`TypePtr::meet_inline_depth`): the maximum of
the two depths. -/
def TypePtr.meet_inline_depth (d1 d2 : Int) : Int := max d1 d2

/-- The `->is_ptr()` cast applied to the result of the speculative-part meet
in `TypePtr::xmeet_speculative`; a non-pointer result trips the cast's
assertion (fatal). -/
def Ty.is_ptr_cast (r : Option Ty) : Option (Option Ty) :=
  match r with
  | none => none
  | some t => if t.isa_ptr then some (some t) else none

/-- Normalization performed by `TypePtr::xmeet` on the result of
`xmeet_helper`: when the computed speculative part equals the type with the
speculative part removed, the speculative part carries no information and is
dropped, so that the no-useful-speculation state has a single canonical
representation. -/
def TypePtr.xmeet_normalize (res : Ty) : Ty :=
  match res.speculative with
  | none => res
  | some s => if res.remove_speculative = s then res.remove_speculative else res

/-- Termination measure for the meet: speculative parts nest finitely. -/
def Ty.m : Ty → Nat
  | .anyPtr _ _ (some s) _ => s.m + 1
  | _ => 0

theorem Ty.m_speculative : ∀ {t s : Ty}, t.speculative = some s → s.m < t.m := by
  intro t s h
  match t with
  | .anyPtr p o (some s1) d =>
    simp [Ty.speculative] at h
    subst h
    simp [Ty.m]
  | .anyPtr p o none d => simp [Ty.speculative] at h
  | .control | .top | .abio | .memory | .bottom
  | .halfFloatTop | .halfFloatCon _ | .halfFloatBot
  | .floatTop | .floatCon _ | .floatBot
  | .doubleTop | .doubleCon _ | .doubleBot => simp [Ty.speculative] at h

mutual

/-- Production-build `Type::meet` = `Type::meet_helper(t, true)`: virtual
dispatch on the receiver's representation to the overriding `xmeet`
(`TypeH`/`TypeF`/`TypeD` constants, the pointer family, or the base
implementation).  `none` models the fatal paths (`typerr`, failing
assertions). -/
def Ty.xmeet (a b : Ty) : Option Ty :=
  match a with
  | .halfFloatCon h => TypeH.xmeet h b
  | .floatCon f => TypeF.xmeet f b
  | .doubleCon d => TypeD.xmeet d b
  | .anyPtr p o s di =>
      match TypePtr.xmeet_helper (.anyPtr p o s di) b with
      | none => none
      | some r => some (TypePtr.xmeet_normalize r)
  | _ => Ty.xmeet_base a b
termination_by (Ty.m a + Ty.m b, 2)
decreasing_by
  apply Prod.Lex.right
  change _ < _
  omega

/-- Pointer meet body (`TypePtr::xmeet_helper`, the receiver an `AnyPtr`):
identical representations meet to themselves, every numeric family and
`Bottom` fall to `BOTTOM`, `Top` returns the receiver, two `AnyPtr`s meet
field-wise (null-ness via the `ptr_meet` table, offsets via `meet_offset`,
speculative parts via `xmeet_speculative`, inline depths via
`meet_inline_depth`), and the remaining tags (`Control`, `Abio`, `Memory`)
are a fatal type error. -/
def TypePtr.xmeet_helper (a b : Ty) : Option Ty :=
  if a = b then some a
  else
    match b with
    | .halfFloatTop => some .bottom
    | .halfFloatCon _ => some .bottom
    | .halfFloatBot => some .bottom
    | .floatTop => some .bottom
    | .floatCon _ => some .bottom
    | .floatBot => some .bottom
    | .doubleTop => some .bottom
    | .doubleCon _ => some .bottom
    | .doubleBot => some .bottom
    | .bottom => some .bottom
    | .top => some a
    | .anyPtr p2 o2 s2 d2 =>
        match a with
        | .anyPtr p1 o1 s1 d1 =>
          match TypePtr.xmeet_speculative (.anyPtr p1 o1 s1 d1) (.anyPtr p2 o2 s2 d2) with
          | none => none
          | some sp =>
              some (.anyPtr (TypePtr.ptr_meet p1 p2) (TypePtr.meet_offset o1 o2) sp
                (TypePtr.meet_inline_depth d1 d2))
        | _ => none
    | _ => none
termination_by (Ty.m a + Ty.m b, 1)
decreasing_by
  apply Prod.Lex.right
  change _ < _
  omega

/-- Meet of the speculative parts of two pointer types
(`TypePtr::xmeet_speculative`): if neither side has a speculative part the
result is null; otherwise a side without a speculative part contributes
itself (its own non-speculative value) and the two contributions are met
with the full `meet`, the result being cast back to a pointer. -/
def TypePtr.xmeet_speculative (a b : Ty) : Option (Option Ty) :=
  match h1 : a.speculative, h2 : b.speculative with
  | none, none => some none
  | some s1, none => Ty.is_ptr_cast (Ty.xmeet s1 b)
  | none, some s2 => Ty.is_ptr_cast (Ty.xmeet a s2)
  | some s1, some s2 => Ty.is_ptr_cast (Ty.xmeet s1 s2)
termination_by (Ty.m a + Ty.m b, 0)
decreasing_by
  all_goals apply Prod.Lex.left
  all_goals change _ < _
  all_goals first
  | { have := Ty.m_speculative h1
      omega }
  | { have := Ty.m_speculative h2
      omega }
  | { have h1a := Ty.m_speculative h1
      have h2a := Ty.m_speculative h2
      omega }

end

theorem Ty.xmeet_control_eq (b : Ty) : Ty.xmeet .control b = Ty.xmeet_base .control b := by
  rw [Ty.xmeet] <;> simp

theorem Ty.xmeet_top_eq (b : Ty) : Ty.xmeet .top b = Ty.xmeet_base .top b := by
  rw [Ty.xmeet] <;> simp

theorem Ty.xmeet_abio_eq (b : Ty) : Ty.xmeet .abio b = Ty.xmeet_base .abio b := by
  rw [Ty.xmeet] <;> simp

theorem Ty.xmeet_memory_eq (b : Ty) : Ty.xmeet .memory b = Ty.xmeet_base .memory b := by
  rw [Ty.xmeet] <;> simp

theorem Ty.xmeet_bottom_eq (b : Ty) : Ty.xmeet .bottom b = Ty.xmeet_base .bottom b := by
  rw [Ty.xmeet] <;> simp

theorem Ty.xmeet_halfFloatTop_eq (b : Ty) :
    Ty.xmeet .halfFloatTop b = Ty.xmeet_base .halfFloatTop b := by
  rw [Ty.xmeet] <;> simp

theorem Ty.xmeet_halfFloatBot_eq (b : Ty) :
    Ty.xmeet .halfFloatBot b = Ty.xmeet_base .halfFloatBot b := by
  rw [Ty.xmeet] <;> simp

theorem Ty.xmeet_floatTop_eq (b : Ty) : Ty.xmeet .floatTop b = Ty.xmeet_base .floatTop b := by
  rw [Ty.xmeet] <;> simp

theorem Ty.xmeet_floatBot_eq (b : Ty) : Ty.xmeet .floatBot b = Ty.xmeet_base .floatBot b := by
  rw [Ty.xmeet] <;> simp

theorem Ty.xmeet_doubleTop_eq (b : Ty) : Ty.xmeet .doubleTop b = Ty.xmeet_base .doubleTop b := by
  rw [Ty.xmeet] <;> simp

theorem Ty.xmeet_doubleBot_eq (b : Ty) : Ty.xmeet .doubleBot b = Ty.xmeet_base .doubleBot b := by
  rw [Ty.xmeet] <;> simp

theorem Ty.xmeet_halfFloatCon_eq (hf : Nat) (b : Ty) :
    Ty.xmeet (.halfFloatCon hf) b = TypeH.xmeet hf b := by
  rw [Ty.xmeet]

theorem Ty.xmeet_floatCon_eq (f : Nat) (b : Ty) :
    Ty.xmeet (.floatCon f) b = TypeF.xmeet f b := by
  rw [Ty.xmeet]

theorem Ty.xmeet_doubleCon_eq (d : Nat) (b : Ty) :
    Ty.xmeet (.doubleCon d) b = TypeD.xmeet d b := by
  rw [Ty.xmeet]

theorem Ty.xmeet_anyPtr_eq (p : PTR) (o : TOffset) (s : Option Ty) (di : Int) (b : Ty) :
    Ty.xmeet (.anyPtr p o s di) b =
      match TypePtr.xmeet_helper (.anyPtr p o s di) b with
      | none => none
      | some r => some (TypePtr.xmeet_normalize r) := by
  rw [Ty.xmeet]

theorem TypePtr.xmeet_speculative_none_none {a b : Ty} (h1 : a.speculative = none)
    (h2 : b.speculative = none) : TypePtr.xmeet_speculative a b = some none := by
  rw [TypePtr.xmeet_speculative]
  split <;> simp_all

theorem TypePtr.xmeet_speculative_some_none {a b s1 : Ty} (h1 : a.speculative = some s1)
    (h2 : b.speculative = none) :
    TypePtr.xmeet_speculative a b = Ty.is_ptr_cast (Ty.xmeet s1 b) := by
  rw [TypePtr.xmeet_speculative]
  split <;> simp_all

theorem TypePtr.xmeet_speculative_none_some {a b s2 : Ty} (h1 : a.speculative = none)
    (h2 : b.speculative = some s2) :
    TypePtr.xmeet_speculative a b = Ty.is_ptr_cast (Ty.xmeet a s2) := by
  rw [TypePtr.xmeet_speculative]
  split <;> simp_all

theorem TypePtr.xmeet_speculative_some_some {a b s1 s2 : Ty} (h1 : a.speculative = some s1)
    (h2 : b.speculative = some s2) :
    TypePtr.xmeet_speculative a b = Ty.is_ptr_cast (Ty.xmeet s1 s2) := by
  rw [TypePtr.xmeet_speculative]
  split <;> simp_all

theorem TypePtr.xmeet_helper_eq (a b : Ty) :
    TypePtr.xmeet_helper a b =
      if a = b then some a
      else
        match b with
        | .halfFloatTop => some .bottom
        | .halfFloatCon _ => some .bottom
        | .halfFloatBot => some .bottom
        | .floatTop => some .bottom
        | .floatCon _ => some .bottom
        | .floatBot => some .bottom
        | .doubleTop => some .bottom
        | .doubleCon _ => some .bottom
        | .doubleBot => some .bottom
        | .bottom => some .bottom
        | .top => some a
        | .anyPtr p2 o2 s2 d2 =>
            match a with
            | .anyPtr p1 o1 s1 d1 =>
              match TypePtr.xmeet_speculative (.anyPtr p1 o1 s1 d1) (.anyPtr p2 o2 s2 d2) with
              | none => none
              | some sp =>
                  some (.anyPtr (TypePtr.ptr_meet p1 p2) (TypePtr.meet_offset o1 o2) sp
                    (TypePtr.meet_inline_depth d1 d2))
            | _ => none
        | _ => none := by
  rw [TypePtr.xmeet_helper.eq_def]

theorem TypePtr.ptr_meet_comm (p q : PTR) :
    TypePtr.ptr_meet p q = TypePtr.ptr_meet q p := by
  cases p <;> cases q <;> rfl

theorem TypePtr.meet_offset_comm (o1 o2 : TOffset) :
    TypePtr.meet_offset o1 o2 = TypePtr.meet_offset o2 o1 := by
  cases o1 <;> cases o2 <;> simp [TypePtr.meet_offset]
  case ofs.ofs m n =>
    by_cases h : m = n
    · subst h; simp
    · simp [h, Ne.symm h, TOffset.ofs.injEq]

theorem TypePtr.meet_inline_depth_comm (d1 d2 : Int) :
    TypePtr.meet_inline_depth d1 d2 = TypePtr.meet_inline_depth d2 d1 :=
  max_comm d1 d2

/-- Well-formedness of the speculative parts: a canonical pointer type whose
speculative part carries no information beyond the type itself has the
speculative part dropped (enforced for the results of every pointer-family
meet by `TypePtr::xmeet`, cf. claim C10). -/
def Ty.specNormalized : Ty → Prop
  | .anyPtr p o (some s) di => s ≠ .anyPtr p o none di ∧ s.specNormalized
  | _ => True

theorem TypePtr.xmeet_normalize_of_normalized {t : Ty} (h : t.specNormalized) :
    TypePtr.xmeet_normalize t = t := by
  match t with
  | .anyPtr p o (some s) di =>
    simp only [Ty.specNormalized] at h
    simp [TypePtr.xmeet_normalize, Ty.speculative, Ty.remove_speculative]
    intro he
    exact absurd he.symm h.1
  | .anyPtr p o none di => simp [TypePtr.xmeet_normalize, Ty.speculative]
  | .control | .top | .abio | .memory | .bottom
  | .halfFloatTop | .halfFloatCon _ | .halfFloatBot
  | .floatTop | .floatCon _ | .floatBot
  | .doubleTop | .doubleCon _ | .doubleBot =>
    simp [TypePtr.xmeet_normalize, Ty.speculative]

theorem Ty.is_ptr_cast_some {r sp : Option Ty} (h : Ty.is_ptr_cast r = some sp) :
    ∃ t, r = some t ∧ sp = some t := by
  cases r with
  | none => simp [Ty.is_ptr_cast] at h
  | some t =>
    refine ⟨t, rfl, ?_⟩
    by_cases hp : t.isa_ptr <;> simp [Ty.is_ptr_cast, hp] at h
    exact h.symm

theorem Ty.specNormalized_speculative : ∀ {a s : Ty},
    a.specNormalized → a.speculative = some s → s.specNormalized := by
  intro a s hn h
  match a with
  | .anyPtr p o (some u) d =>
    simp only [Ty.speculative] at h
    cases h
    exact hn.2
  | .anyPtr p o none d => simp [Ty.speculative] at h
  | .control | .top | .abio | .memory | .bottom
  | .halfFloatTop | .halfFloatCon _ | .halfFloatBot
  | .floatTop | .floatCon _ | .floatBot
  | .doubleTop | .doubleCon _ | .doubleBot => simp [Ty.speculative] at h

set_option maxHeartbeats 2000000 in
theorem Ty.xmeet_comm_aux : ∀ (n : Nat) (a b : Ty), Ty.m a + Ty.m b ≤ n →
    a.specNormalized → b.specNormalized →
    ∀ ra rb : Ty, Ty.xmeet a b = some ra → Ty.xmeet b a = some rb → ra = rb := by
  intro n
  induction n using Nat.strong_induction_on with
  | _ n IH =>
  intro a b hm hna hnb ra rb hab hba
  by_cases heq : a = b
  · subst heq
    rw [hab] at hba
    exact Option.some_inj.mp hba
  have heq' : ¬ b = a := fun h => heq h.symm
  cases a <;> cases b <;>
    try (simp_all [Ty.xmeet_control_eq, Ty.xmeet_top_eq, Ty.xmeet_abio_eq,
          Ty.xmeet_memory_eq, Ty.xmeet_bottom_eq, Ty.xmeet_halfFloatTop_eq,
          Ty.xmeet_halfFloatBot_eq, Ty.xmeet_floatTop_eq, Ty.xmeet_floatBot_eq,
          Ty.xmeet_doubleTop_eq, Ty.xmeet_doubleBot_eq, Ty.xmeet_halfFloatCon_eq,
          Ty.xmeet_floatCon_eq, Ty.xmeet_doubleCon_eq, Ty.xmeet_anyPtr_eq,
          TypePtr.xmeet_helper_eq, Ty.xmeet_base, TypeF.xmeet, TypeH.xmeet, TypeD.xmeet,
          Ty.meet_halfFloatBot_case, Ty.meet_floatBot_case, Ty.meet_doubleBot_case,
          TypePtr.xmeet_normalize, Ty.speculative, Ty.remove_speculative]
         try (subst_vars
              try (simp_all [Ty.xmeet_control_eq, Ty.xmeet_top_eq, Ty.xmeet_abio_eq,
                Ty.xmeet_memory_eq, Ty.xmeet_bottom_eq, Ty.xmeet_halfFloatTop_eq,
                Ty.xmeet_halfFloatBot_eq, Ty.xmeet_floatTop_eq, Ty.xmeet_floatBot_eq,
                Ty.xmeet_doubleTop_eq, Ty.xmeet_doubleBot_eq, Ty.xmeet_halfFloatCon_eq,
                Ty.xmeet_floatCon_eq, Ty.xmeet_doubleCon_eq, Ty.xmeet_anyPtr_eq,
                TypePtr.xmeet_helper_eq, Ty.xmeet_base, TypeF.xmeet, TypeH.xmeet, TypeD.xmeet,
                Ty.meet_halfFloatBot_case, Ty.meet_floatBot_case, Ty.meet_doubleBot_case,
                TypePtr.xmeet_normalize, Ty.speculative, Ty.remove_speculative]))
         done)
  case neg.top.anyPtr p2 o2 s2 d2 =>
    rw [Ty.xmeet_top_eq] at hab
    rw [Ty.xmeet_anyPtr_eq, TypePtr.xmeet_helper_eq] at hba
    simp [Ty.xmeet_base, heq] at hab
    simp [heq'] at hba
    rw [TypePtr.xmeet_normalize_of_normalized hnb] at hba
    rw [← hab, ← hba]
  case neg.anyPtr.top p1 o1 s1 d1 =>
    rw [Ty.xmeet_anyPtr_eq, TypePtr.xmeet_helper_eq] at hab
    rw [Ty.xmeet_top_eq] at hba
    simp [heq] at hab
    simp [Ty.xmeet_base, heq'] at hba
    rw [TypePtr.xmeet_normalize_of_normalized hna] at hab
    rw [← hab, ← hba]
  case neg.anyPtr.anyPtr p1 o1 s1 d1 p2 o2 s2 d2 =>
    have hspec : ∀ x y : Option Ty,
        TypePtr.xmeet_speculative (Ty.anyPtr p1 o1 s1 d1) (Ty.anyPtr p2 o2 s2 d2) = some x →
        TypePtr.xmeet_speculative (Ty.anyPtr p2 o2 s2 d2) (Ty.anyPtr p1 o1 s1 d1) = some y →
        x = y := by
      intro x y hx hy
      cases s1 with
      | none =>
        cases s2 with
        | none =>
          rw [TypePtr.xmeet_speculative_none_none (by simp [Ty.speculative])
            (by simp [Ty.speculative])] at hx hy
          simp only [Option.some.injEq] at hx hy
          rw [← hx, ← hy]
        | some u2 =>
          rw [TypePtr.xmeet_speculative_none_some (by simp [Ty.speculative])
            (by simp [Ty.speculative] : (Ty.anyPtr p2 o2 (some u2) d2).speculative = some u2)] at hx
          rw [TypePtr.xmeet_speculative_some_none
            (by simp [Ty.speculative] : (Ty.anyPtr p2 o2 (some u2) d2).speculative = some u2)
            (by simp [Ty.speculative])] at hy
          obtain ⟨t1, ht1, hxt⟩ := Ty.is_ptr_cast_some hx
          obtain ⟨t2, ht2, hyt⟩ := Ty.is_ptr_cast_some hy
          have hlt : Ty.m (Ty.anyPtr p1 o1 none d1) + Ty.m u2 < n := by
            simp only [Ty.m] at hm ⊢
            omega
          have hteq : t1 = t2 :=
            IH _ hlt (Ty.anyPtr p1 o1 none d1) u2 le_rfl hna
              (Ty.specNormalized_speculative hnb (by simp [Ty.speculative])) t1 t2 ht1 ht2
          rw [hxt, hyt, hteq]
      | some u1 =>
        cases s2 with
        | none =>
          rw [TypePtr.xmeet_speculative_some_none
            (by simp [Ty.speculative] : (Ty.anyPtr p1 o1 (some u1) d1).speculative = some u1)
            (by simp [Ty.speculative])] at hx
          rw [TypePtr.xmeet_speculative_none_some (by simp [Ty.speculative])
            (by simp [Ty.speculative] : (Ty.anyPtr p1 o1 (some u1) d1).speculative = some u1)] at hy
          obtain ⟨t1, ht1, hxt⟩ := Ty.is_ptr_cast_some hx
          obtain ⟨t2, ht2, hyt⟩ := Ty.is_ptr_cast_some hy
          have hlt : Ty.m u1 + Ty.m (Ty.anyPtr p2 o2 none d2) < n := by
            simp only [Ty.m] at hm ⊢
            omega
          have hteq : t1 = t2 :=
            IH _ hlt u1 (Ty.anyPtr p2 o2 none d2) le_rfl
              (Ty.specNormalized_speculative hna (by simp [Ty.speculative])) hnb t1 t2 ht1 ht2
          rw [hxt, hyt, hteq]
        | some u2 =>
          rw [TypePtr.xmeet_speculative_some_some
            (by simp [Ty.speculative] : (Ty.anyPtr p1 o1 (some u1) d1).speculative = some u1)
            (by simp [Ty.speculative] : (Ty.anyPtr p2 o2 (some u2) d2).speculative = some u2)] at hx
          rw [TypePtr.xmeet_speculative_some_some
            (by simp [Ty.speculative] : (Ty.anyPtr p2 o2 (some u2) d2).speculative = some u2)
            (by simp [Ty.speculative] : (Ty.anyPtr p1 o1 (some u1) d1).speculative = some u1)] at hy
          obtain ⟨t1, ht1, hxt⟩ := Ty.is_ptr_cast_some hx
          obtain ⟨t2, ht2, hyt⟩ := Ty.is_ptr_cast_some hy
          have hlt : Ty.m u1 + Ty.m u2 < n := by
            simp only [Ty.m] at hm ⊢
            omega
          have hteq : t1 = t2 :=
            IH _ hlt u1 u2 le_rfl
              (Ty.specNormalized_speculative hna (by simp [Ty.speculative]))
              (Ty.specNormalized_speculative hnb (by simp [Ty.speculative])) t1 t2 ht1 ht2
          rw [hxt, hyt, hteq]
    rw [Ty.xmeet_anyPtr_eq, TypePtr.xmeet_helper_eq] at hab hba
    rw [if_neg heq] at hab
    rw [if_neg heq'] at hba
    simp only [] at hab hba
    rcases hsp : TypePtr.xmeet_speculative (Ty.anyPtr p1 o1 s1 d1) (Ty.anyPtr p2 o2 s2 d2)
      with _ | sp
    · rw [hsp] at hab
      simp at hab
    rcases hsp2 : TypePtr.xmeet_speculative (Ty.anyPtr p2 o2 s2 d2) (Ty.anyPtr p1 o1 s1 d1)
      with _ | sp2
    · rw [hsp2] at hba
      simp at hba
    rw [hsp] at hab
    rw [hsp2] at hba
    simp only [Option.some.injEq] at hab hba
    rw [← hab, ← hba, hspec sp sp2 hsp hsp2,
      TypePtr.ptr_meet_comm p1 p2, TypePtr.meet_offset_comm o1 o2,
      TypePtr.meet_inline_depth_comm d1 d2]

/-- C1 (counterexample): the claim "for every pair of types A and B,
`meet(A,B)` equals `meet(B,A)`" fails on the code at the concrete pair
A = `Type::FLOAT` (the `FloatBot` singleton) and B = `TypePtr::BOTTOM`
(the bottom `AnyPtr`): `TypePtr::xmeet_helper` maps `FloatBot` to
`Type::BOTTOM`, but the base `Type::xmeet` switch run with receiver `FLOAT`
has no case for `AnyPtr` and falls into `typerr` /`ShouldNotReachHere`
(a fatal abort, modelled as `none`), so the two orders do not agree. -/
theorem Ty.meet_comm_counterexample :
    Ty.xmeet (.anyPtr .BotPTR .bot none 0) .floatBot = some .bottom ∧
    Ty.xmeet .floatBot (.anyPtr .BotPTR .bot none 0) = none ∧
    Ty.xmeet .floatBot (.anyPtr .BotPTR .bot none 0) ≠
      Ty.xmeet (.anyPtr .BotPTR .bot none 0) .floatBot := by
  refine ⟨?_, ?_, ?_⟩
  · rw [Ty.xmeet_anyPtr_eq, TypePtr.xmeet_helper_eq]
    simp [TypePtr.xmeet_normalize, Ty.speculative]
  · rw [Ty.xmeet_floatBot_eq]
    simp [Ty.xmeet_base]
  · rw [Ty.xmeet_floatBot_eq, Ty.xmeet_anyPtr_eq, TypePtr.xmeet_helper_eq]
    simp [Ty.xmeet_base, TypePtr.xmeet_normalize, Ty.speculative]

/-- C1 (amended): the meet is commutative on every pair where it is defined:
for canonical operands (speculative parts normalized, as every pointer meet
result is) such that neither orientation of the meet hits a fatal
type-mixing error, both orientations produce the same type. -/
theorem Ty.meet_defined_comm (a b : Ty)
    (hna : a.specNormalized) (hnb : b.specNormalized) (ra rb : Ty)
    (hab : Ty.xmeet a b = some ra) (hba : Ty.xmeet b a = some rb) : ra = rb :=
  Ty.xmeet_comm_aux (Ty.m a + Ty.m b) a b le_rfl hna hnb ra rb hab hba

theorem Ty.meet_defined_comm_witness :
    Ty.xmeet (.anyPtr .NotNull (.ofs 0) none 0) (.anyPtr .BotPTR .bot none 2) =
      some (.anyPtr .BotPTR .bot none 2) ∧
    Ty.xmeet (.anyPtr .BotPTR .bot none 2) (.anyPtr .NotNull (.ofs 0) none 0) =
      some (.anyPtr .BotPTR .bot none 2) ∧
    (Ty.anyPtr .BotPTR .bot none 2) = (Ty.anyPtr .BotPTR .bot none 2) := by
  have h1 : Ty.xmeet (.anyPtr .NotNull (.ofs 0) none 0) (.anyPtr .BotPTR .bot none 2) =
      some (.anyPtr .BotPTR .bot none 2) := by
    rw [Ty.xmeet_anyPtr_eq, TypePtr.xmeet_helper_eq]
    simp [TypePtr.xmeet_speculative_none_none, TypePtr.ptr_meet, TypePtr.meet_offset,
      TypePtr.meet_inline_depth, TypePtr.xmeet_normalize, Ty.speculative]
  have h2 : Ty.xmeet (.anyPtr .BotPTR .bot none 2) (.anyPtr .NotNull (.ofs 0) none 0) =
      some (.anyPtr .BotPTR .bot none 2) := by
    rw [Ty.xmeet_anyPtr_eq, TypePtr.xmeet_helper_eq]
    simp [TypePtr.xmeet_speculative_none_none, TypePtr.ptr_meet, TypePtr.meet_offset,
      TypePtr.meet_inline_depth, TypePtr.xmeet_normalize, Ty.speculative]
  exact ⟨h1, h2,
    Ty.meet_defined_comm (.anyPtr .NotNull (.ofs 0) none 0) (.anyPtr .BotPTR .bot none 2)
      (by simp [Ty.specNormalized]) (by simp [Ty.specNormalized]) _ _ h1 h2⟩

/-- C7: meeting two float constants compares their bit patterns
(`jint_cast` in `TypeF::xmeet`/`TypeF::eq`): unequal patterns fall to the
generic `FLOAT`, equal patterns keep the constant.  In particular `+0.0f`
(bit pattern `0x00000000`) met with `-0.0f` (bit pattern `0x80000000`)
yields `FLOAT`, not a shared constant, even though the two compare equal
numerically. -/
theorem TypeF.xmeet_float_constants :
    (∀ f g : Nat, Ty.xmeet (.floatCon f) (.floatCon g) =
      some (if f = g then .floatCon f else .floatBot)) ∧
    Ty.xmeet (.floatCon 0x00000000) (.floatCon 0x80000000) = some .floatBot := by
  have key : ∀ f g : Nat, Ty.xmeet (.floatCon f) (.floatCon g) =
      some (if f = g then .floatCon f else .floatBot) := by
    intro f g
    rw [Ty.xmeet_floatCon_eq]
    by_cases h : f = g
    · subst h
      simp [TypeF.xmeet]
    · simp [TypeF.xmeet, h, Ne.symm h]
  exact ⟨key, by rw [key]; simp⟩

theorem TypePtr.xmeet_normalize_inlineDepth (p : PTR) (o : TOffset) (s : Option Ty) (d : Int) :
    (TypePtr.xmeet_normalize (.anyPtr p o s d)).inlineDepth = some d := by
  cases s with
  | none => simp [TypePtr.xmeet_normalize, Ty.speculative, Ty.inlineDepth]
  | some u =>
    simp only [TypePtr.xmeet_normalize, Ty.speculative, Ty.remove_speculative]
    split <;> simp [Ty.inlineDepth]

/-- C8: the speculative-part meet of two pointer types.  First conjunct: the
result of a (non-fatal) `xmeet_speculative` is null exactly when neither
side has a speculative part.  Second conjunct: a side with no speculative
part contributes its own non-speculative value, so the other side's guess is
met against it and survives.  Third conjunct: the inline depth of a pointer
meet result is the maximum (`TypePtr::meet_inline_depth`) of the operands'
inline depths. -/
theorem TypePtr.xmeet_speculative_inline_depth_spec :
    (∀ a b : Ty, ∀ r : Option Ty, TypePtr.xmeet_speculative a b = some r →
      (r = none ↔ a.speculative = none ∧ b.speculative = none)) ∧
    (∀ a b s2 : Ty, a.speculative = none → b.speculative = some s2 →
      TypePtr.xmeet_speculative a b = Ty.is_ptr_cast (Ty.xmeet a s2)) ∧
    (∀ (p1 : PTR) (o1 : TOffset) (s1 : Option Ty) (d1 : Int)
       (p2 : PTR) (o2 : TOffset) (s2 : Option Ty) (d2 : Int) (r : Ty),
      Ty.xmeet (.anyPtr p1 o1 s1 d1) (.anyPtr p2 o2 s2 d2) = some r →
      r.inlineDepth = some (TypePtr.meet_inline_depth d1 d2)) := by
  refine ⟨?_, ?_, ?_⟩
  · intro a b r hr
    cases hs1 : a.speculative with
    | none =>
      cases hs2 : b.speculative with
      | none =>
        rw [TypePtr.xmeet_speculative_none_none hs1 hs2] at hr
        simp only [Option.some.injEq] at hr
        simp [← hr]
      | some s2 =>
        rw [TypePtr.xmeet_speculative_none_some hs1 hs2] at hr
        obtain ⟨t, _, hrt⟩ := Ty.is_ptr_cast_some hr
        simp [hrt]
    | some s1 =>
      cases hs2 : b.speculative with
      | none =>
        rw [TypePtr.xmeet_speculative_some_none hs1 hs2] at hr
        obtain ⟨t, _, hrt⟩ := Ty.is_ptr_cast_some hr
        simp [hrt]
      | some s2 =>
        rw [TypePtr.xmeet_speculative_some_some hs1 hs2] at hr
        obtain ⟨t, _, hrt⟩ := Ty.is_ptr_cast_some hr
        simp [hrt]
  · intro a b s2 h1 h2
    exact TypePtr.xmeet_speculative_none_some h1 h2
  · intro p1 o1 s1 d1 p2 o2 s2 d2 r hr
    rw [Ty.xmeet_anyPtr_eq, TypePtr.xmeet_helper_eq] at hr
    by_cases heq : (Ty.anyPtr p1 o1 s1 d1) = (Ty.anyPtr p2 o2 s2 d2)
    · rw [if_pos heq] at hr
      simp only [Option.some.injEq] at hr
      have hd : d1 = d2 := by
        injection heq
      subst hd
      rw [← hr, heq, TypePtr.xmeet_normalize_inlineDepth]
      simp [TypePtr.meet_inline_depth]
    · rw [if_neg heq] at hr
      simp only [] at hr
      rcases hsp : TypePtr.xmeet_speculative (Ty.anyPtr p1 o1 s1 d1) (Ty.anyPtr p2 o2 s2 d2)
        with _ | sp
      · rw [hsp] at hr
        simp at hr
      · rw [hsp] at hr
        simp only [Option.some.injEq] at hr
        rw [← hr, TypePtr.xmeet_normalize_inlineDepth]

theorem TypePtr.xmeet_speculative_inline_depth_spec_witness :
    ((none : Option Ty) = none ↔
      (Ty.anyPtr .BotPTR .bot none 1).speculative = none ∧
      (Ty.anyPtr .BotPTR .bot none 3).speculative = none) ∧
    TypePtr.xmeet_speculative (.anyPtr .BotPTR .bot none 1)
        (.anyPtr .BotPTR .bot (some (.anyPtr .NotNull .bot none 1)) 1) =
      Ty.is_ptr_cast (Ty.xmeet (.anyPtr .BotPTR .bot none 1) (.anyPtr .NotNull .bot none 1)) ∧
    (Ty.anyPtr .BotPTR .bot none 3).inlineDepth = some (TypePtr.meet_inline_depth 1 3) := by
  refine ⟨?_, ?_, ?_⟩
  · exact TypePtr.xmeet_speculative_inline_depth_spec.1 (.anyPtr .BotPTR .bot none 1)
      (.anyPtr .BotPTR .bot none 3) none
      (TypePtr.xmeet_speculative_none_none (by simp [Ty.speculative]) (by simp [Ty.speculative]))
  · exact TypePtr.xmeet_speculative_inline_depth_spec.2.1 _ _ _
      (by simp [Ty.speculative]) (by simp [Ty.speculative])
  · refine TypePtr.xmeet_speculative_inline_depth_spec.2.2 .BotPTR .bot none 1 .BotPTR .bot none 3
      (.anyPtr .BotPTR .bot none 3) ?_
    rw [Ty.xmeet_anyPtr_eq, TypePtr.xmeet_helper_eq]
    simp [TypePtr.xmeet_speculative_none_none, TypePtr.ptr_meet, TypePtr.meet_offset,
      TypePtr.meet_inline_depth, TypePtr.xmeet_normalize, Ty.speculative]

theorem TypePtr.xmeet_normalize_nospec (t : Ty) (h : t.speculative = none) :
    TypePtr.xmeet_normalize t = t := by
  rw [TypePtr.xmeet_normalize, h]

theorem TypePtr.xmeet_normalize_anyPtr_some (p : PTR) (o : TOffset) (u : Ty) (d : Int) :
    TypePtr.xmeet_normalize (.anyPtr p o (some u) d) =
      if Ty.anyPtr p o none d = u then .anyPtr p o none d else .anyPtr p o (some u) d := by
  simp [TypePtr.xmeet_normalize, Ty.speculative, Ty.remove_speculative]

theorem TypePtr.xmeet_normalize_result_normal : ∀ (t : Ty) (s' : Ty),
    (TypePtr.xmeet_normalize t).speculative = some s' →
    (TypePtr.xmeet_normalize t).remove_speculative ≠ s' := by
  intro t s' hs
  match t with
  | .anyPtr p o (some u) d =>
    rw [TypePtr.xmeet_normalize_anyPtr_some] at hs ⊢
    by_cases h : Ty.anyPtr p o none d = u
    · rw [if_pos h] at hs
      simp [Ty.speculative] at hs
    · rw [if_neg h] at hs ⊢
      simp only [Ty.speculative, Option.some.injEq] at hs
      subst hs
      simpa [Ty.remove_speculative] using h
  | .anyPtr p o none d =>
    rw [TypePtr.xmeet_normalize_nospec _ (by simp [Ty.speculative])] at hs
    simp [Ty.speculative] at hs
  | .control | .top | .abio | .memory | .bottom
  | .halfFloatTop | .halfFloatCon _ | .halfFloatBot
  | .floatTop | .floatCon _ | .floatBot
  | .doubleTop | .doubleCon _ | .doubleBot =>
    rw [TypePtr.xmeet_normalize_nospec _ (by simp [Ty.speculative])] at hs
    simp [Ty.speculative] at hs

/-- C10: every (non-fatal) result of the pointer-family meet
(`TypePtr::xmeet`, receiver a pointer) has its speculative part normalized:
the returned type never carries a speculative part equal to the type itself
with the speculative part removed, so "no useful speculative information"
has a unique canonical representation (the null speculative part). -/
theorem TypePtr.xmeet_speculative_normalized :
    ∀ (p : PTR) (o : TOffset) (s : Option Ty) (d : Int) (b : Ty) (r s' : Ty),
      Ty.xmeet (.anyPtr p o s d) b = some r →
      r.speculative = some s' → r.remove_speculative ≠ s' := by
  intro p o s d b r s' hr hs
  rw [Ty.xmeet_anyPtr_eq] at hr
  rcases hh : TypePtr.xmeet_helper (.anyPtr p o s d) b with _ | r0
  · rw [hh] at hr
    simp at hr
  · rw [hh] at hr
    simp only [Option.some.injEq] at hr
    rw [← hr] at hs ⊢
    exact TypePtr.xmeet_normalize_result_normal r0 s' hs

theorem TypePtr.xmeet_speculative_normalized_witness :
    Ty.xmeet (.anyPtr .BotPTR (.ofs 0) (some (.anyPtr .NotNull (.ofs 0) none 0)) 0)
        (.anyPtr .BotPTR (.ofs 0) (some (.anyPtr .NotNull (.ofs 0) none 0)) 0) =
      some (.anyPtr .BotPTR (.ofs 0) (some (.anyPtr .NotNull (.ofs 0) none 0)) 0) ∧
    (Ty.anyPtr .BotPTR (.ofs 0) (some (.anyPtr .NotNull (.ofs 0) none 0)) 0).speculative =
      some (.anyPtr .NotNull (.ofs 0) none 0) ∧
    (Ty.anyPtr .BotPTR (.ofs 0) (some (.anyPtr .NotNull (.ofs 0) none 0)) 0).remove_speculative ≠
      (.anyPtr .NotNull (.ofs 0) none 0) := by
  have h1 : Ty.xmeet (.anyPtr .BotPTR (.ofs 0) (some (.anyPtr .NotNull (.ofs 0) none 0)) 0)
      (.anyPtr .BotPTR (.ofs 0) (some (.anyPtr .NotNull (.ofs 0) none 0)) 0) =
      some (.anyPtr .BotPTR (.ofs 0) (some (.anyPtr .NotNull (.ofs 0) none 0)) 0) := by
    rw [Ty.xmeet_anyPtr_eq, TypePtr.xmeet_helper_eq]
    simp [TypePtr.xmeet_normalize, Ty.speculative, Ty.remove_speculative]
  refine ⟨h1, by simp [Ty.speculative], ?_⟩
  exact TypePtr.xmeet_speculative_normalized .BotPTR (.ofs 0)
    (some (.anyPtr .NotNull (.ofs 0) none 0)) 0 _ _ _ h1 (by simp [Ty.speculative])

/-- The hash-consing dictionary (`Type::_shared_type_dict` / the
per-compilation `type_dict`).  `entries` lists the canonical instances in
insertion order — a type's index in this list plays the role of its pointer
identity — and `dualIdx i` is the index of the memoized `_dual` of entry
`i`. -/
structure TypeDict where
  entries : List Ty
  dualIdx : List Nat
deriving Repr

/-- Index of the first element structurally equal to `t`. -/
def TypeDict.lookupList : List Ty → Ty → Option Nat
  | [], _ => none
  | u :: rest, t => if u = t then some 0 else (TypeDict.lookupList rest t).map (· + 1)

/-- Probe of the dictionary by structural equality (`Dict::Insert` compares
keys with `Type::equals`): the index of the canonical instance structurally
equal to `t`, if any. -/
def TypeDict.lookup (d : TypeDict) (t : Ty) : Option Nat :=
  TypeDict.lookupList d.entries t

/-- The hash-cons trick (`Type::hashcons`): if a structurally equal type is
already in the table the candidate is discarded (`delete this`) and the
pre-existing one returned; otherwise the candidate is interned, its dual is
computed right away (`_dual = xdual()`), a structurally self-dual type
becomes its own dual (`equals(this, _dual)`), and otherwise the dual is
interned as well (it is asserted absent) with its `_dual` back-reference set
to the candidate. -/
def Ty.hashcons (d : TypeDict) (t : Ty) : Nat × TypeDict :=
  match d.lookup t with
  | some i => (i, d)
  | none =>
    let n := d.entries.length
    let dl := t.xdual
    if dl = t then
      (n, ⟨d.entries ++ [t], d.dualIdx ++ [n]⟩)
    else
      (n, ⟨d.entries ++ [t, dl], d.dualIdx ++ [n + 1, n]⟩)

/-- Dictionaries reachable from the empty dictionary by interning. -/
inductive TypeDict.Reached : TypeDict → Prop
  | empty : TypeDict.Reached ⟨[], []⟩
  | step (d : TypeDict) (t : Ty) : TypeDict.Reached d → TypeDict.Reached (Ty.hashcons d t).2

/-- Invariant of reachable dictionaries: dual indices parallel the entries,
entries are structurally distinct, the table is closed under duals, and the
dual pointers pair every entry with its `xdual` (pointing back, and
self-pointing exactly for self-dual entries). -/
def TypeDict.InvL (es : List Ty) (ds : List Nat) : Prop :=
  ds.length = es.length ∧
  es.Nodup ∧
  (∀ t, t ∈ es → t.xdual ∈ es) ∧
  (∀ (i j : Nat) (t : Ty), es[i]? = some t → ds[i]? = some j →
    es[j]? = some t.xdual ∧ ds[j]? = some i ∧ (t.xdual = t → j = i))

def TypeDict.Inv (d : TypeDict) : Prop :=
  TypeDict.InvL d.entries d.dualIdx

theorem TypeDict.lookupList_none_iff (l : List Ty) (t : Ty) :
    TypeDict.lookupList l t = none ↔ t ∉ l := by
  induction l with
  | nil => simp [TypeDict.lookupList]
  | cons u rest ih =>
    by_cases h : u = t
    · subst h
      simp [TypeDict.lookupList]
    · simp [TypeDict.lookupList, h, ih, Ne.symm h]

theorem TypeDict.lookup_none_iff (d : TypeDict) (t : Ty) :
    d.lookup t = none ↔ t ∉ d.entries :=
  TypeDict.lookupList_none_iff d.entries t

theorem TypeDict.lookupList_append_left (l1 l2 : List Ty) (t : Ty) (i : Nat)
    (h : TypeDict.lookupList l1 t = some i) :
    TypeDict.lookupList (l1 ++ l2) t = some i := by
  induction l1 generalizing i with
  | nil => simp [TypeDict.lookupList] at h
  | cons u rest ih =>
    by_cases hu : u = t
    · subst hu
      simp [TypeDict.lookupList] at h ⊢
      exact h
    · simp only [TypeDict.lookupList, if_neg hu, Option.map_eq_some'] at h
      obtain ⟨j, hj, hij⟩ := h
      simp only [List.cons_append, TypeDict.lookupList, if_neg hu]
      show Option.map (· + 1) (TypeDict.lookupList (rest ++ l2) t) = some i
      rw [ih j hj]
      simp only [Option.map_some']
      exact congrArg some hij

theorem TypeDict.lookupList_append_of_none (l1 l2 : List Ty) (t : Ty)
    (h : TypeDict.lookupList l1 t = none) :
    TypeDict.lookupList (l1 ++ l2) t =
      (TypeDict.lookupList l2 t).map (· + l1.length) := by
  induction l1 with
  | nil => simp
  | cons u rest ih =>
    by_cases hu : u = t
    · subst hu
      simp [TypeDict.lookupList] at h
    · simp only [TypeDict.lookupList, if_neg hu, Option.map_eq_none'] at h
      simp only [List.cons_append, TypeDict.lookupList, if_neg hu]
      show Option.map (· + 1) (TypeDict.lookupList (rest ++ l2) t) =
        Option.map (· + (u :: rest).length) (TypeDict.lookupList l2 t)
      rw [ih h]
      cases hl2 : TypeDict.lookupList l2 t with
      | none => simp
      | some j =>
        simp only [Option.map_some', List.length_cons]
        exact congrArg some (by omega)

theorem TypeDict.lookupList_mem {l : List Ty} {t : Ty} {i : Nat}
    (h : TypeDict.lookupList l t = some i) : t ∈ l := by
  by_cases hm : t ∈ l
  · exact hm
  · rw [(TypeDict.lookupList_none_iff l t).mpr hm] at h
    cases h

theorem TypeDict.inv_empty : TypeDict.Inv ⟨[], []⟩ := by
  refine ⟨rfl, List.nodup_nil, ?_, ?_⟩
  · intro t ht
    cases ht
  · intro i j t ht
    simp at ht

theorem Ty.hashcons_hit (d : TypeDict) (t : Ty) (i : Nat) (hl : d.lookup t = some i) :
    Ty.hashcons d t = (i, d) := by
  rw [Ty.hashcons, hl]

theorem Ty.hashcons_fresh (d : TypeDict) (t : Ty) (hl : d.lookup t = none) :
    Ty.hashcons d t =
      if t.xdual = t then
        (d.entries.length, ⟨d.entries ++ [t], d.dualIdx ++ [d.entries.length]⟩)
      else
        (d.entries.length,
          ⟨d.entries ++ [t, t.xdual], d.dualIdx ++ [d.entries.length + 1, d.entries.length]⟩) := by
  rw [Ty.hashcons, hl]

theorem getElem_append_at_len {α : Type} (l rest : List α) (a : α) (n : Nat)
    (h : n = l.length) : (l ++ a :: rest)[n]? = some a := by
  subst h
  rw [List.getElem?_append_right (le_refl l.length), Nat.sub_self]
  simp

theorem getElem_append_at_len1 {α : Type} (l rest : List α) (a b : α) (n : Nat)
    (h : n = l.length + 1) : (l ++ a :: b :: rest)[n]? = some b := by
  subst h
  rw [List.getElem?_append_right (by omega : l.length ≤ l.length + 1)]
  have h1 : l.length + 1 - l.length = 1 := by omega
  rw [h1]
  simp

theorem TypeDict.inv_extend_self (d : TypeDict) (t : Ty)
    (hlen : d.dualIdx.length = d.entries.length) (hnd : d.entries.Nodup)
    (hcl : ∀ u ∈ d.entries, u.xdual ∈ d.entries)
    (hpair : ∀ (i j : Nat) (u : Ty), d.entries[i]? = some u → d.dualIdx[i]? = some j →
      d.entries[j]? = some u.xdual ∧ d.dualIdx[j]? = some i ∧ (u.xdual = u → j = i))
    (htm : t ∉ d.entries) (hsd : t.xdual = t) :
    TypeDict.InvL (d.entries ++ [t]) (d.dualIdx ++ [d.entries.length]) := by
  refine ⟨by simp [hlen], ?_, ?_, ?_⟩
  · exact List.Nodup.append hnd (List.nodup_singleton t)
      (by simpa [List.disjoint_singleton] using htm)
  · intro u hu
    rcases List.mem_append.mp hu with hu | hu
    · exact List.mem_append.mpr (Or.inl (hcl u hu))
    · have : u = t := by simpa using hu
      subst this
      rw [hsd]
      exact List.mem_append.mpr (Or.inr (by simp))
  · intro i j u hui hji
    by_cases hi : i < d.entries.length
    · rw [List.getElem?_append_left hi] at hui
      rw [List.getElem?_append_left (by omega : i < d.dualIdx.length)] at hji
      obtain ⟨hj1, hj2, hj3⟩ := hpair i j u hui hji
      have hjlt : j < d.entries.length := by
        rcases List.getElem?_eq_some_iff.mp hj1 with ⟨hb, _⟩
        exact hb
      refine ⟨?_, ?_, hj3⟩
      · rw [List.getElem?_append_left hjlt]
        exact hj1
      · rw [List.getElem?_append_left (by omega : j < d.dualIdx.length)]
        exact hj2
    · have hilen : i = d.entries.length := by
        rcases List.getElem?_eq_some_iff.mp hui with ⟨hb, _⟩
        simp at hb
        omega
      subst hilen
      rw [getElem_append_at_len d.entries [] t _ rfl] at hui
      rw [getElem_append_at_len d.dualIdx [] d.entries.length _ hlen.symm] at hji
      cases hui
      cases hji
      refine ⟨?_, ?_, fun _ => rfl⟩
      · rw [hsd]
        exact getElem_append_at_len d.entries [] t _ rfl
      · exact getElem_append_at_len d.dualIdx [] d.entries.length _ hlen.symm

theorem TypeDict.inv_extend_pair (d : TypeDict) (t : Ty)
    (hlen : d.dualIdx.length = d.entries.length) (hnd : d.entries.Nodup)
    (hcl : ∀ u ∈ d.entries, u.xdual ∈ d.entries)
    (hpair : ∀ (i j : Nat) (u : Ty), d.entries[i]? = some u → d.dualIdx[i]? = some j →
      d.entries[j]? = some u.xdual ∧ d.dualIdx[j]? = some i ∧ (u.xdual = u → j = i))
    (htm : t ∉ d.entries) (hsd : ¬ t.xdual = t) :
    TypeDict.InvL (d.entries ++ [t, t.xdual])
      (d.dualIdx ++ [d.entries.length + 1, d.entries.length]) := by
  have hdm : t.xdual ∉ d.entries := by
    intro hmem
    have := hcl t.xdual hmem
    rw [Ty.xdual_invol] at this
    exact htm this
  refine ⟨by simp [hlen], ?_, ?_, ?_⟩
  · refine List.Nodup.append hnd ?_ ?_
    · simp [List.nodup_cons, hsd]
      intro hc
      exact hsd hc.symm
    · intro u hu hv
      simp only [List.mem_cons, List.mem_singleton] at hv
      rcases hv with rfl | hv
      · exact htm hu
      · simp at hv
        subst hv
        exact hdm hu
  · intro u hu
    rcases List.mem_append.mp hu with hu | hu
    · exact List.mem_append.mpr (Or.inl (hcl u hu))
    · simp only [List.mem_cons, List.mem_singleton] at hu
      rcases hu with rfl | hu
      · exact List.mem_append.mpr (Or.inr (by simp))
      · simp at hu
        subst hu
        rw [Ty.xdual_invol]
        exact List.mem_append.mpr (Or.inr (by simp))
  · intro i j u hui hji
    by_cases hi : i < d.entries.length
    · rw [List.getElem?_append_left hi] at hui
      rw [List.getElem?_append_left (by omega : i < d.dualIdx.length)] at hji
      obtain ⟨hj1, hj2, hj3⟩ := hpair i j u hui hji
      have hjlt : j < d.entries.length := by
        rcases List.getElem?_eq_some_iff.mp hj1 with ⟨hb, _⟩
        exact hb
      refine ⟨?_, ?_, hj3⟩
      · rw [List.getElem?_append_left hjlt]
        exact hj1
      · rw [List.getElem?_append_left (by omega : j < d.dualIdx.length)]
        exact hj2
    · have hi2 : i < d.entries.length + 2 := by
        rcases List.getElem?_eq_some_iff.mp hui with ⟨hb, _⟩
        simp at hb
        omega
      rcases (by omega : i = d.entries.length ∨ i = d.entries.length + 1) with hieq | hieq
      · subst hieq
        rw [getElem_append_at_len d.entries [t.xdual] t _ rfl] at hui
        rw [getElem_append_at_len d.dualIdx [d.entries.length] (d.entries.length + 1) _
          hlen.symm] at hji
        cases hui
        cases hji
        refine ⟨?_, ?_, fun hc => absurd hc hsd⟩
        · exact getElem_append_at_len1 d.entries [] t t.xdual _ rfl
        · exact getElem_append_at_len1 d.dualIdx [] (d.entries.length + 1) d.entries.length _
            (by omega)
      · subst hieq
        rw [getElem_append_at_len1 d.entries [] t t.xdual _ rfl] at hui
        rw [getElem_append_at_len1 d.dualIdx [] (d.entries.length + 1) d.entries.length _
          (by omega)] at hji
        cases hui
        cases hji
        refine ⟨?_, ?_, ?_⟩
        · rw [Ty.xdual_invol]
          exact getElem_append_at_len d.entries [t.xdual] t _ rfl
        · exact getElem_append_at_len d.dualIdx [d.entries.length] (d.entries.length + 1) _
            hlen.symm
        · intro hc
          rw [Ty.xdual_invol] at hc
          exact absurd hc.symm hsd

theorem TypeDict.inv_step (d : TypeDict) (t : Ty) (h : TypeDict.Inv d) :
    TypeDict.Inv (Ty.hashcons d t).2 := by
  obtain ⟨hlen, hnd, hcl, hpair⟩ := h
  cases hl : d.lookup t with
  | some i =>
    rw [Ty.hashcons_hit d t i hl]
    exact ⟨hlen, hnd, hcl, hpair⟩
  | none =>
    rw [Ty.hashcons_fresh d t hl]
    have htm : t ∉ d.entries := (TypeDict.lookup_none_iff d t).mp hl
    by_cases hsd : t.xdual = t
    · rw [if_pos hsd]
      exact TypeDict.inv_extend_self d t hlen hnd hcl hpair htm hsd
    · rw [if_neg hsd]
      exact TypeDict.inv_extend_pair d t hlen hnd hcl hpair htm hsd

theorem TypeDict.reached_inv (d : TypeDict) (h : TypeDict.Reached d) : TypeDict.Inv d := by
  induction h with
  | empty => exact TypeDict.inv_empty
  | step d t _ ih => exact TypeDict.inv_step d t ih

/-- C5: the dual of a dual is the original.  First conjunct: the
representation-level dual computation `xdual` is an involution (this is the
content of the debug assertion `eq(dual_dual)` in `Type::hashcons`).  Second
conjunct, for every dictionary reachable by interning from the empty one:
the memoized `_dual` back-references pair up (the dual's dual back-reference
is the original), a structurally self-dual type's dual is the type itself,
and the entry a dual pointer designates is the `xdual` of the source entry
— the dual is computed once at interning time and only looked up
afterwards. -/
theorem Ty.dual_dual_identity :
    (∀ a : Ty, a.xdual.xdual = a) ∧
    (∀ d : TypeDict, TypeDict.Reached d →
      (∀ i j : Nat, d.dualIdx[i]? = some j → d.dualIdx[j]? = some i) ∧
      (∀ (i : Nat) (t : Ty), d.entries[i]? = some t → t.xdual = t → d.dualIdx[i]? = some i) ∧
      (∀ (i j : Nat) (t : Ty), d.entries[i]? = some t → d.dualIdx[i]? = some j →
        d.entries[j]? = some t.xdual)) := by
  refine ⟨Ty.xdual_invol, ?_⟩
  intro d hr
  obtain ⟨hlen, hnd, hcl, hpair⟩ := TypeDict.reached_inv d hr
  refine ⟨?_, ?_, ?_⟩
  · intro i j hij
    have hilt : i < d.entries.length := by
      rcases List.getElem?_eq_some_iff.mp hij with ⟨hb, _⟩
      omega
    have hei : d.entries[i]? = some d.entries[i] := List.getElem?_eq_getElem hilt
    exact (hpair i j _ hei hij).2.1
  · intro i t het hsd
    have hilt : i < d.dualIdx.length := by
      rcases List.getElem?_eq_some_iff.mp het with ⟨hb, _⟩
      omega
    have hdi : d.dualIdx[i]? = some d.dualIdx[i] := List.getElem?_eq_getElem hilt
    have := hpair i d.dualIdx[i] t het hdi
    rw [this.2.2 hsd] at hdi
    exact hdi
  · intro i j t het hij
    exact (hpair i j t het hij).1

theorem Ty.dual_dual_identity_witness :
    (Ty.floatCon 0).xdual.xdual = Ty.floatCon 0 ∧
    TypeDict.Reached ⟨[Ty.floatCon 0], [0]⟩ ∧
    (⟨[Ty.floatCon 0], [0]⟩ : TypeDict).dualIdx[0]? = some 0 := by
  have hr : TypeDict.Reached ⟨[Ty.floatCon 0], [0]⟩ := by
    have h0 : (Ty.hashcons ⟨[], []⟩ (Ty.floatCon 0)).2 = ⟨[Ty.floatCon 0], [0]⟩ := by
      rw [Ty.hashcons]
      rfl
    have := TypeDict.Reached.step ⟨[], []⟩ (Ty.floatCon 0) TypeDict.Reached.empty
    rw [h0] at this
    exact this
  refine ⟨Ty.dual_dual_identity.1 (Ty.floatCon 0), hr, ?_⟩
  exact (Ty.dual_dual_identity.2 ⟨[Ty.floatCon 0], [0]⟩ hr).1 0 0 rfl

/-- C6: hash-consing uniqueness.  First conjunct: every reachable
dictionary holds no two structurally equal live instances.  Second
conjunct: when a structurally equal instance already exists, the candidate
is discarded and the existing canonical index returned, the table
unchanged.  Third conjunct: interning the same structural value twice
returns the same canonical index and the same table, so two calls of the
same make-style factory yield the identical instance. -/
theorem Ty.hashcons_unique :
    (∀ d : TypeDict, TypeDict.Reached d → d.entries.Nodup) ∧
    (∀ (d : TypeDict) (t : Ty) (i : Nat), d.lookup t = some i → Ty.hashcons d t = (i, d)) ∧
    (∀ (d : TypeDict) (t : Ty), Ty.hashcons (Ty.hashcons d t).2 t = Ty.hashcons d t) := by
  refine ⟨?_, ?_, ?_⟩
  · intro d hr
    exact (TypeDict.reached_inv d hr).2.1
  · intro d t i hl
    exact Ty.hashcons_hit d t i hl
  · intro d t
    cases hl : d.lookup t with
    | some i =>
      rw [Ty.hashcons_hit d t i hl, Ty.hashcons_hit d t i hl]
    | none =>
      rw [Ty.hashcons_fresh d t hl]
      have hnl : TypeDict.lookupList d.entries t = none := hl
      by_cases hsd : t.xdual = t
      · rw [if_pos hsd]
        have hfound : TypeDict.lookup ⟨d.entries ++ [t], d.dualIdx ++ [d.entries.length]⟩ t =
            some d.entries.length := by
          show TypeDict.lookupList (d.entries ++ [t]) t = some d.entries.length
          rw [TypeDict.lookupList_append_of_none d.entries [t] t hnl]
          simp [TypeDict.lookupList]
        rw [Ty.hashcons_hit _ t d.entries.length hfound]
      · rw [if_neg hsd]
        have hfound : TypeDict.lookup
            ⟨d.entries ++ [t, t.xdual], d.dualIdx ++ [d.entries.length + 1, d.entries.length]⟩ t =
            some d.entries.length := by
          show TypeDict.lookupList (d.entries ++ [t, t.xdual]) t = some d.entries.length
          rw [TypeDict.lookupList_append_of_none d.entries [t, t.xdual] t hnl]
          simp [TypeDict.lookupList]
        rw [Ty.hashcons_hit _ t d.entries.length hfound]

theorem Ty.hashcons_unique_witness :
    (⟨[Ty.floatCon 0], [0]⟩ : TypeDict).entries.Nodup ∧
    Ty.hashcons ⟨[Ty.floatCon 0], [0]⟩ (Ty.floatCon 0) = (0, ⟨[Ty.floatCon 0], [0]⟩) := by
  have hr : TypeDict.Reached ⟨[Ty.floatCon 0], [0]⟩ := by
    have h0 : (Ty.hashcons ⟨[], []⟩ (Ty.floatCon 0)).2 = ⟨[Ty.floatCon 0], [0]⟩ := by
      rw [Ty.hashcons]
      rfl
    have := TypeDict.Reached.step ⟨[], []⟩ (Ty.floatCon 0) TypeDict.Reached.empty
    rw [h0] at this
    exact this
  refine ⟨Ty.hashcons_unique.1 ⟨[Ty.floatCon 0], [0]⟩ hr, ?_⟩
  exact Ty.hashcons_unique.2.1 ⟨[Ty.floatCon 0], [0]⟩ (Ty.floatCon 0) 0 rfl

/-- Pair of bit masks giving the bits known to be zero and known to be one
(`KnownBits<juint>` from the absent `rangeinference.hpp`). -/
structure KnownBits where
  zeros : Nat
  ones : Nat
deriving DecidableEq, Repr

/-- Modelled from the spec: `KnownBits::is_satisfied_by` (its definition
lives in the absent `rangeinference.hpp`); the spec describes the bitmask
view as "a bitmask pair (zeros, ones) of bits known-0/known-1", so a value
satisfies it when it has no known-zero bit set and all known-one bits
set. -/
def KnownBits.is_satisfied_by (k : KnownBits) (v : Nat) : Prop :=
  v &&& k.zeros = 0 ∧ v &&& k.ones = k.ones

instance (k : KnownBits) (v : Nat) : Decidable (k.is_satisfied_by v) := by
  unfold KnownBits.is_satisfied_by
  infer_instance

/-- Signed (`jint`) reading of a 32-bit pattern. -/
def jintOfBits (u : Nat) : Int :=
  if u < 2 ^ 31 then (u : Int) else (u : Int) - 2 ^ 32

/-- Unsigned (`juint`) reading of a `jint` value (the conversion
`juint u = i;` in `TypeInt::contains`). -/
def juintOfInt (i : Int) : Nat :=
  (i % 2 ^ 32).toNat

/-- The requested constraints of a bounded 32-bit integer type
(`TypeIntPrototype<jint, juint>`): signed range, unsigned range and known
bits. -/
structure TypeIntPrototype where
  lo : Int
  hi : Int
  ulo : Nat
  uhi : Nat
  bits : KnownBits
deriving DecidableEq, Repr

/-- A 32-bit pattern satisfies the prototype when it lies in the signed
range, in the unsigned range, and satisfies the known bits. -/
def TypeIntPrototype.sat (p : TypeIntPrototype) (u : Nat) : Prop :=
  p.lo ≤ jintOfBits u ∧ jintOfBits u ≤ p.hi ∧
  p.ulo ≤ u ∧ u ≤ p.uhi ∧ p.bits.is_satisfied_by u

instance (p : TypeIntPrototype) (u : Nat) : Decidable (p.sat u) := by
  unfold TypeIntPrototype.sat
  infer_instance

/-- Modelled from the spec: the emptiness test of
`TypeIntPrototype::canonicalize_constraints` (defined in the absent
`rangeinference` translation unit).  The spec says construction "collapses
to the canonical empty representation ... if the intersection is provably
empty", the effective value set being "the intersection of all three
views", so emptiness is the absence of any 32-bit value satisfying all
three constraint views simultaneously. -/
def TypeIntPrototype.isEmpty (p : TypeIntPrototype) : Prop :=
  ∀ u < 2 ^ 32, ¬ p.sat u

instance (p : TypeIntPrototype) : Decidable p.isEmpty := by
  unfold TypeIntPrototype.isEmpty
  infer_instance

/-- The bounded 32-bit integer type (`TypeInt`): the three constraint
views, the widening counter and the meet/join orientation flag
(`_lo/_hi/_ulo/_uhi/_bits/_widen/_is_dual`). -/
structure TypeInt where
  lo : Int
  hi : Int
  ulo : Nat
  uhi : Nat
  bits : KnownBits
  widen : Nat
  is_dual : Bool
deriving DecidableEq, Repr

/-- Result of the `make_or_top` factory, which returns a generic
`const Type*`: the canonical lattice `Type::TOP`, `Type::BOTTOM`, or a
bounded integer type. -/
inductive IntMakeResult where
  | top
  | bottom
  | intTy (t : TypeInt)
deriving DecidableEq, Repr

/-- `TypeInt::make_or_top(TypeIntPrototype, int widen, bool dual)`:
canonicalize the constraints; if they are contradictory (empty), return the
lattice `Type::BOTTOM` when dual and `Type::TOP` otherwise; else intern the
bounded integer type.  (The surviving constraints are carried through; the
tightening performed by the absent `canonicalize_constraints` is not
modelled, only its empty/non-empty verdict, which is all the claims
consult.) -/
def TypeInt.make_or_top (p : TypeIntPrototype) (widen : Nat) (dual : Bool) : IntMakeResult :=
  if p.isEmpty then (if dual then .bottom else .top)
  else .intTy ⟨p.lo, p.hi, p.ulo, p.uhi, p.bits, widen, dual⟩

/-- `TypeInt::make(jint lo, jint hi, int widen)`: asserts `lo <= hi`
("must be legal bounds", a fatal debug assertion modelled as `none`),
builds the prototype from the signed range with unconstrained unsigned
range and unconstrained bits, and casts the result back with `is_int()`
(which fatally asserts if `make_or_top` collapsed to `TOP`). -/
def TypeInt.make (lo hi : Int) (widen : Nat) : Option TypeInt :=
  if lo ≤ hi then
    match TypeInt.make_or_top ⟨lo, hi, 0, 2 ^ 32 - 1, ⟨0, 0⟩⟩ widen false with
    | .intTy t => some t
    | _ => none
  else none

/-- `TypeInt::contains(jint i)`: asserts the type is primal
(`!_is_dual`, modelled as `none` on a dual), converts `i` to its unsigned
reading, and tests the conjunction of the three constraint views. -/
def TypeInt.contains (t : TypeInt) (i : Int) : Option Bool :=
  if t.is_dual then none
  else
    let u := juintOfInt i
    some (decide (t.lo ≤ i) && decide (i ≤ t.hi) &&
      decide (t.ulo ≤ u) && decide (u ≤ t.uhi) &&
      decide (t.bits.is_satisfied_by u))

/-- C3 (counterexample): as stated the claim routes the example
`lo > hi` through `make(lo, hi, widen)` and promises the canonical lattice
Top "never an error"; but `TypeInt::make` asserts `lo <= hi` ("must be
legal bounds"), so `make(5, 1, widen)` is a fatal assertion failure (and in
a product build the subsequent `is_int()` cast of `Type::TOP` would be an
invalid cast), not a `Top` result. -/
theorem TypeInt.make_out_of_order_bounds_asserts :
    TypeInt.make 5 1 1 = none ∧ ∀ t : TypeInt, TypeInt.make 5 1 1 ≠ some t := by
  constructor
  · rfl
  · intro t h
    rw [show TypeInt.make 5 1 1 = none from rfl] at h
    cases h

/-- C3 (amended): the collapse on contradictory constraints belongs to
`TypeInt::make_or_top`: when the requested signed/unsigned/bitmask views
are mutually contradictory (their intersection is empty), it returns the
canonical lattice `Type::BOTTOM` if building the dual side and
`Type::TOP` otherwise — never a malformed range object; `TypeInt::make`
itself requires `lo <= hi` by assertion. -/
theorem TypeInt.make_or_top_empty_collapse (p : TypeIntPrototype) (w : Nat) (dual : Bool)
    (h : p.isEmpty) :
    TypeInt.make_or_top p w dual = if dual then .bottom else .top := by
  rw [TypeInt.make_or_top, if_pos h]

theorem TypeInt.make_or_top_empty_collapse_witness :
    TypeIntPrototype.isEmpty ⟨5, 10, 0, 0, ⟨0, 0⟩⟩ ∧
    TypeInt.make_or_top ⟨5, 10, 0, 0, ⟨0, 0⟩⟩ 3 false = .top ∧
    TypeInt.make_or_top ⟨5, 10, 0, 0, ⟨0, 0⟩⟩ 3 true = .bottom := by
  have hempty : TypeIntPrototype.isEmpty ⟨5, 10, 0, 0, ⟨0, 0⟩⟩ := by
    intro u hu hsat
    obtain ⟨h1, h2, h3, h4, h5⟩ := hsat
    simp only at h1 h2 h3 h4
    have hu0 : u = 0 := by omega
    subst hu0
    rw [jintOfBits] at h1
    simp at h1
  refine ⟨hempty, ?_, ?_⟩
  · rw [TypeInt.make_or_top_empty_collapse _ 3 false hempty]
    rfl
  · rw [TypeInt.make_or_top_empty_collapse _ 3 true hempty]
    rfl

/-- C4: for a primal bounded integer type, `contains(v)` returns true
exactly when the scalar lies simultaneously in the signed range, in the
unsigned range (under the `juint` reading of the scalar) and satisfies the
known-bits mask; calling it on a dual (join-side) type trips the
`!_is_dual` assertion. -/
theorem TypeInt.contains_spec :
    (∀ (t : TypeInt) (i : Int), t.is_dual = false →
      (TypeInt.contains t i = some true ↔
        ((t.lo ≤ i ∧ i ≤ t.hi) ∧
         (t.ulo ≤ juintOfInt i ∧ juintOfInt i ≤ t.uhi) ∧
         t.bits.is_satisfied_by (juintOfInt i)))) ∧
    (∀ (t : TypeInt) (i : Int), t.is_dual = true → TypeInt.contains t i = none) := by
  constructor
  · intro t i hd
    rw [TypeInt.contains, if_neg (by simp [hd])]
    simp only [Option.some.injEq, Bool.and_eq_true, decide_eq_true_eq]
    tauto
  · intro t i hd
    rw [TypeInt.contains, if_pos hd]

theorem TypeInt.contains_spec_witness :
    TypeInt.contains ⟨-1, 1, 0, 2 ^ 32 - 1, ⟨0, 0⟩, 0, false⟩ 1 = some true ∧
    TypeInt.contains ⟨-1, 1, 0, 2 ^ 32 - 1, ⟨0, 0⟩, 0, true⟩ 1 = none := by
  constructor
  · refine (TypeInt.contains_spec.1 ⟨-1, 1, 0, 2 ^ 32 - 1, ⟨0, 0⟩, 0, false⟩ 1 rfl).mpr ?_
    refine ⟨⟨by norm_num, by norm_num⟩, ⟨?_, ?_⟩, ?_⟩
    · simp [juintOfInt]
    · rw [juintOfInt]
      norm_num
    · rw [juintOfInt]
      norm_num
      exact ⟨rfl, rfl⟩
  · exact TypeInt.contains_spec.2 ⟨-1, 1, 0, 2 ^ 32 - 1, ⟨0, 0⟩, 0, true⟩ 1 rfl

/-- Interface sets (`TypeInterfaces`): a canonicalized, duplicate-free
sequence of interface klass handles sorted by the total order
`TypeInterfaces::compare` (pointer comparison); handles are embedded as
`Nat` identities with their `<` order.  `union_with` is the linear
merge-join of the two sorted sequences (`type.cpp:3303-3342`): the C++
two-index loop pushes the run of strictly smaller elements from either
side, then a common element once; the recursion below produces the same
sequence one element at a time. -/
def TypeInterfaces.union_with : List Nat → List Nat → List Nat
  | [], l2 => l2
  | l1, [] => l1
  | k1 :: t1, k2 :: t2 =>
    if k1 < k2 then k1 :: TypeInterfaces.union_with t1 (k2 :: t2)
    else if k2 < k1 then k2 :: TypeInterfaces.union_with (k1 :: t1) t2
    else k1 :: TypeInterfaces.union_with t1 t2

/-- Linear merge-join intersection of two sorted interface sequences
(`TypeInterfaces::intersection_with`, `type.cpp:3344-3381`): elements
present on only one side are skipped, common elements pushed once. -/
def TypeInterfaces.intersection_with : List Nat → List Nat → List Nat
  | [], _ => []
  | _, [] => []
  | k1 :: t1, k2 :: t2 =>
    if k1 < k2 then TypeInterfaces.intersection_with t1 (k2 :: t2)
    else if k2 < k1 then TypeInterfaces.intersection_with (k1 :: t1) t2
    else k1 :: TypeInterfaces.intersection_with t1 t2

theorem TypeInterfaces.union_with_comm :
    ∀ l1 l2 : List Nat, TypeInterfaces.union_with l1 l2 = TypeInterfaces.union_with l2 l1
  | [], l2 => by
    rw [TypeInterfaces.union_with]
    cases l2 with
    | nil => rw [TypeInterfaces.union_with]
    | cons a t => rw [TypeInterfaces.union_with] <;> simp
  | l1, [] => by
    cases l1 with
    | nil => rw [TypeInterfaces.union_with]
    | cons a t =>
      rw [TypeInterfaces.union_with, TypeInterfaces.union_with] <;> simp
  | k1 :: t1, k2 :: t2 => by
    rcases Nat.lt_trichotomy k1 k2 with h | h | h
    · rw [TypeInterfaces.union_with, if_pos h, TypeInterfaces.union_with,
        if_neg (by omega), if_pos h, TypeInterfaces.union_with_comm t1 (k2 :: t2)]
    · subst h
      rw [TypeInterfaces.union_with, if_neg (by omega), if_neg (by omega),
        TypeInterfaces.union_with, if_neg (by omega), if_neg (by omega),
        TypeInterfaces.union_with_comm t1 t2]
    · rw [TypeInterfaces.union_with, if_neg (by omega), if_pos h, TypeInterfaces.union_with,
        if_pos h, TypeInterfaces.union_with_comm (k1 :: t1) t2]

theorem TypeInterfaces.mem_union_with :
    ∀ (l1 l2 : List Nat) (x : Nat),
      x ∈ TypeInterfaces.union_with l1 l2 ↔ x ∈ l1 ∨ x ∈ l2
  | [], l2, x => by
    rw [TypeInterfaces.union_with]
    simp
  | l1, [], x => by
    cases l1 with
    | nil =>
      rw [TypeInterfaces.union_with]
      simp
    | cons a t =>
      rw [TypeInterfaces.union_with] <;> simp
  | k1 :: t1, k2 :: t2, x => by
    rcases Nat.lt_trichotomy k1 k2 with h | h | h
    · rw [TypeInterfaces.union_with, if_pos h]
      simp only [List.mem_cons, TypeInterfaces.mem_union_with t1 (k2 :: t2)]
      tauto
    · subst h
      rw [TypeInterfaces.union_with, if_neg (by omega), if_neg (by omega)]
      simp only [List.mem_cons, TypeInterfaces.mem_union_with t1 t2]
      tauto
    · rw [TypeInterfaces.union_with, if_neg (by omega), if_pos h]
      simp only [List.mem_cons, TypeInterfaces.mem_union_with (k1 :: t1) t2]
      tauto

theorem TypeInterfaces.intersection_with_self :
    ∀ l : List Nat, TypeInterfaces.intersection_with l l = l := by
  intro l
  induction l with
  | nil => rw [TypeInterfaces.intersection_with]
  | cons k t ih =>
    rw [TypeInterfaces.intersection_with, if_neg (by omega), if_neg (by omega), ih]

theorem TypeInterfaces.mem_intersection_with :
    ∀ (l1 l2 : List Nat) (x : Nat),
      x ∈ TypeInterfaces.intersection_with l1 l2 → x ∈ l1 ∧ x ∈ l2
  | [], l2, x => by
    rw [TypeInterfaces.intersection_with]
    simp
  | k1 :: t1, [], x => by
    rw [TypeInterfaces.intersection_with] <;> simp
  | k1 :: t1, k2 :: t2, x => by
    rcases Nat.lt_trichotomy k1 k2 with h | h | h
    · rw [TypeInterfaces.intersection_with, if_pos h]
      intro hx
      have := TypeInterfaces.mem_intersection_with t1 (k2 :: t2) x hx
      exact ⟨List.mem_cons_of_mem _ this.1, this.2⟩
    · subst h
      rw [TypeInterfaces.intersection_with, if_neg (by omega), if_neg (by omega)]
      intro hx
      rcases List.mem_cons.mp hx with rfl | hx
      · exact ⟨List.mem_cons_self _ _, List.mem_cons_self _ _⟩
      · have := TypeInterfaces.mem_intersection_with t1 t2 x hx
        exact ⟨List.mem_cons_of_mem _ this.1, List.mem_cons_of_mem _ this.2⟩
    · rw [TypeInterfaces.intersection_with, if_neg (by omega), if_pos h]
      intro hx
      have := TypeInterfaces.mem_intersection_with (k1 :: t1) t2 x hx
      exact ⟨this.1, List.mem_cons_of_mem _ this.2⟩

theorem TypeInterfaces.intersection_with_sublist :
    ∀ l1 l2 : List Nat, (TypeInterfaces.intersection_with l1 l2).Sublist l1
  | [], l2 => by
    rw [TypeInterfaces.intersection_with]
  | k1 :: t1, [] => by
    rw [TypeInterfaces.intersection_with] <;> simp
  | k1 :: t1, k2 :: t2 => by
    rcases Nat.lt_trichotomy k1 k2 with h | h | h
    · rw [TypeInterfaces.intersection_with, if_pos h]
      exact (TypeInterfaces.intersection_with_sublist t1 (k2 :: t2)).trans
        (List.sublist_cons_self k1 t1)
    · subst h
      rw [TypeInterfaces.intersection_with, if_neg (by omega), if_neg (by omega)]
      exact List.Sublist.cons₂ k1 (TypeInterfaces.intersection_with_sublist t1 t2)
    · rw [TypeInterfaces.intersection_with, if_neg (by omega), if_pos h]
      exact TypeInterfaces.intersection_with_sublist (k1 :: t1) t2

theorem TypeInterfaces.union_with_sorted :
    ∀ l1 l2 : List Nat, List.Sorted (· < ·) l1 → List.Sorted (· < ·) l2 →
      List.Sorted (· < ·) (TypeInterfaces.union_with l1 l2)
  | [], l2, h1, h2 => by
    rw [TypeInterfaces.union_with]
    exact h2
  | l1, [], h1, h2 => by
    cases l1 with
    | nil =>
      rw [TypeInterfaces.union_with]
      exact h2
    | cons a t =>
      rw [TypeInterfaces.union_with]
      exact h1
      simp
  | k1 :: t1, k2 :: t2, h1, h2 => by
    rw [List.sorted_cons] at h1 h2
    rcases Nat.lt_trichotomy k1 k2 with h | h | h
    · rw [TypeInterfaces.union_with, if_pos h, List.sorted_cons]
      refine ⟨?_, TypeInterfaces.union_with_sorted t1 (k2 :: t2) h1.2 (by
        rw [List.sorted_cons]
        exact h2)⟩
      intro b hb
      rcases (TypeInterfaces.mem_union_with t1 (k2 :: t2) b).mp hb with hb | hb
      · exact h1.1 b hb
      · rcases List.mem_cons.mp hb with rfl | hb
        · exact h
        · exact lt_trans h (h2.1 b hb)
    · subst h
      rw [TypeInterfaces.union_with, if_neg (by omega), if_neg (by omega), List.sorted_cons]
      refine ⟨?_, TypeInterfaces.union_with_sorted t1 t2 h1.2 h2.2⟩
      intro b hb
      rcases (TypeInterfaces.mem_union_with t1 t2 b).mp hb with hb | hb
      · exact h1.1 b hb
      · exact h2.1 b hb
    · rw [TypeInterfaces.union_with, if_neg (by omega), if_pos h, List.sorted_cons]
      refine ⟨?_, TypeInterfaces.union_with_sorted (k1 :: t1) t2 (by
        rw [List.sorted_cons]
        exact h1) h2.2⟩
      intro b hb
      rcases (TypeInterfaces.mem_union_with (k1 :: t1) t2 b).mp hb with hb | hb
      · rcases List.mem_cons.mp hb with rfl | hb
        · exact h
        · exact lt_trans h (h1.1 b hb)
      · exact h2.1 b hb

/-- C9: algebra of the interface-set merge-joins on canonicalized (sorted,
duplicate-free) sequences: `union_with` is commutative,
`intersection_with(S, S) = S`, every member of `intersection_with(S1, S2)`
is present in both operands, and both operations return a sorted
(canonical, duplicate-free) sequence. -/
theorem TypeInterfaces.set_ops_spec (l1 l2 : List Nat)
    (h1 : List.Sorted (· < ·) l1) (h2 : List.Sorted (· < ·) l2) :
    TypeInterfaces.union_with l1 l2 = TypeInterfaces.union_with l2 l1 ∧
    TypeInterfaces.intersection_with l1 l1 = l1 ∧
    (∀ x, x ∈ TypeInterfaces.intersection_with l1 l2 → x ∈ l1 ∧ x ∈ l2) ∧
    List.Sorted (· < ·) (TypeInterfaces.union_with l1 l2) ∧
    List.Sorted (· < ·) (TypeInterfaces.intersection_with l1 l2) :=
  ⟨TypeInterfaces.union_with_comm l1 l2,
   TypeInterfaces.intersection_with_self l1,
   fun x => TypeInterfaces.mem_intersection_with l1 l2 x,
   TypeInterfaces.union_with_sorted l1 l2 h1 h2,
   List.Pairwise.sublist (TypeInterfaces.intersection_with_sublist l1 l2) h1⟩

theorem TypeInterfaces.set_ops_spec_witness :
    TypeInterfaces.union_with [1, 3] [2, 3] = TypeInterfaces.union_with [2, 3] [1, 3] ∧
    TypeInterfaces.intersection_with [1, 3] [1, 3] = [1, 3] ∧
    (∀ x, x ∈ TypeInterfaces.intersection_with [1, 3] [2, 3] → x ∈ [1, 3] ∧ x ∈ [2, 3]) ∧
    List.Sorted (· < ·) (TypeInterfaces.union_with [1, 3] [2, 3]) ∧
    List.Sorted (· < ·) (TypeInterfaces.intersection_with [1, 3] [2, 3]) :=
  TypeInterfaces.set_ops_spec [1, 3] [2, 3] (by decide) (by decide)

/-! ### Instance-pointer meet: `TypePtr::meet_instptr` (type.cpp:4299-4402) -/

/-- Modelled from the spec: the external class-hierarchy collaborator
(the `ciKlass` API lives outside this file's sources).  Klasses are numeric
identifiers; the collaborator answers the subtype query
(`ciKlass::is_subtype_of`), the least-common-ancestor query
(`ciKlass::least_common_ancestor`), loadedness (`ciKlass::is_loaded`), and
knows the distinguished `java.lang.Object` klass
(`ciEnv::current()->Object_klass()`). -/
structure CHA where
  is_subtype_of : Nat → Nat → Bool
  least_common_ancestor : Nat → Nat → Nat
  is_loaded : Nat → Bool
  object_klass : Nat

/-- The fields of a `TypeInstPtr` operand that `TypePtr::meet_instptr`
reads: the null-ness state (`ptr()`), the klass (`klass()`), the sorted
interface set (`_interfaces`) and the exactness flag (`klass_is_exact()`). -/
structure TypeInstPtrS where
  ptr : PTR
  klass : Nat
  interfaces : List Nat
  klass_is_exact : Bool
deriving DecidableEq, Repr

/-- Modelled from the spec: `TypeInterfaces::contains` (declared in the
absent `type.hpp`): an interface set contains another iff intersecting with
it leaves the other unchanged. -/
def TypeInterfaces.contains (s1 s2 : List Nat) : Bool :=
  TypeInterfaces.intersection_with s1 s2 == s2

/-- `TypePtr::is_same_java_type_as_helper_for_instance`
(type.cpp:5967-5976, routed through `TypeInstPtr::is_same_java_type_as_helper`
at type.cpp:4444): false unless both classes are loaded; the
`is_instance_type` guard always holds between two instance pointers; then
klass equality and element-wise interface-set equality. -/
def TypeInstPtrS.is_same_java_type_as (cha : CHA) (a b : TypeInstPtrS) : Bool :=
  if !(cha.is_loaded a.klass) || !(cha.is_loaded b.klass) then false
  else a.klass == b.klass && a.interfaces == b.interfaces

/-- `TypePtr::is_meet_subtype_of_helper_for_instance` (type.cpp:4557-4570):
the `is_instance_type` guard always holds between two instance pointers;
meeting into `java.lang.Object` carrying no interfaces succeeds outright;
otherwise the class-hierarchy subtype query must hold, and an exact receiver
must additionally carry all of the supertype's interfaces.  The `this_xk`
argument of the helper is the receiver's own exactness flag (the
`is_meet_subtype_of` entry point is declared in the absent `type.hpp`). -/
def TypeInstPtrS.is_meet_subtype_of (cha : CHA) (this_one other : TypeInstPtrS) : Bool :=
  if other.klass == cha.object_klass && other.interfaces.isEmpty then true
  else cha.is_subtype_of this_one.klass other.klass &&
    (!this_one.klass_is_exact || TypeInterfaces.contains this_one.interfaces other.interfaces)

/-- Modelled from the spec: `TypePtr::MeetResult` (declared in the absent
`type.hpp`); the constructors are exactly the values the meet helpers
return. -/
inductive MeetResult where
  | QUICK
  | UNLOADED
  | SUBTYPE
  | NOT_SUBTYPE
  | LCA
deriving DecidableEq, Repr

/-- The outputs of `TypePtr::meet_instptr`: the returned `MeetResult`
together with the by-reference out-parameters `ptr`, `interfaces`,
`res_klass` and `res_xk` (`res_klass` starts out as `nullptr`, hence the
`Option`). -/
structure MeetInstPtrResult where
  kind : MeetResult
  ptr : PTR
  interfaces : List Nat
  res_klass : Option Nat
  res_xk : Bool
deriving DecidableEq, Repr

/-- `TypePtr::meet_instptr` (type.cpp:4299-4402).  `ptr0` and `interfaces0`
are the in-out parameters as passed by the caller (`TypeInstPtr::xmeet_helper`
hands in `meet_ptr` and `meet_interfaces` of the operands).  The local
mutations of `this_type`/`other_type`/`this_xk`/`other_xk` inside the
subtype block become the tuple `st`; note that the final LCA branch reads
the ORIGINAL `this_klass`/`other_klass`/`this_interfaces`/`other_interfaces`
locals, which the source captures before any mutation. -/
def TypePtr.meet_instptr (cha : CHA) (ptr0 : PTR) (interfaces0 : List Nat)
    (this_type other_type : TypeInstPtrS) : MeetInstPtrResult :=
  let this_xk := this_type.klass_is_exact
  let other_xk := other_type.klass_is_exact
  let this_ptr := this_type.ptr
  let other_ptr := other_type.ptr
  if ptr0 ≠ PTR.Constant ∧ this_type.klass = other_type.klass ∧ this_xk = other_xk then
    ⟨MeetResult.QUICK, ptr0, interfaces0, some this_type.klass, this_xk⟩
  else if ¬ (cha.is_loaded other_type.klass = true) ∨ ¬ (cha.is_loaded this_type.klass = true) then
    ⟨MeetResult.UNLOADED, ptr0, interfaces0, none, false⟩
  else
    let sub : Option (TypeInstPtrS × Bool) :=
      if TypeInstPtrS.is_same_java_type_as cha this_type other_type then
        some (this_type,
          if below_centerline ptr0 then this_xk && other_xk else this_xk || other_xk)
      else if !other_xk && TypeInstPtrS.is_meet_subtype_of cha this_type other_type then
        some (this_type, this_xk)
      else if !this_xk && TypeInstPtrS.is_meet_subtype_of cha other_type this_type then
        some (other_type, other_xk)
      else none
    let st : TypeInstPtrS × TypeInstPtrS × Bool × Bool :=
      match sub with
      | none => (this_type, other_type, this_xk, other_xk)
      | some (subtype, subtype_exact) =>
        if above_centerline ptr0 then
          (subtype, subtype, subtype_exact, subtype_exact)
        else if above_centerline this_ptr && !(above_centerline other_ptr) then
          (other_type, other_type, other_xk, other_xk)
        else if above_centerline other_ptr && !(above_centerline this_ptr) then
          (this_type, this_type, this_xk, this_xk)
        else
          (this_type, other_type, subtype_exact, other_xk)
    if TypeInstPtrS.is_same_java_type_as cha st.1 st.2.1 then
      ⟨MeetResult.SUBTYPE, ptr0, interfaces0, some st.1.klass, st.2.2.1⟩
    else
      ⟨MeetResult.LCA,
       if ptr0 = PTR.TopPTR ∨ ptr0 = PTR.AnyNull ∨ ptr0 = PTR.Constant then PTR.NotNull
       else ptr0,
       TypeInterfaces.intersection_with this_type.interfaces other_type.interfaces,
       some (cha.least_common_ancestor this_type.klass other_type.klass),
       false⟩

theorem TypeInstPtrS.is_same_java_type_as_of_ne (cha : CHA) (a b : TypeInstPtrS)
    (h : a.klass ≠ b.klass) : TypeInstPtrS.is_same_java_type_as cha a b = false := by
  unfold TypeInstPtrS.is_same_java_type_as
  split
  · rfl
  · simp [h]

/-- A concrete three-class hierarchy for instantiating the meet: klass 0 is
`java.lang.Object`, klasses 1 and 2 are two unrelated loaded classes whose
only common ancestor is Object. -/
def chaFooBar : CHA where
  is_subtype_of := fun a b => a == b || b == 0
  least_common_ancestor := fun a b => if a == b then a else 0
  is_loaded := fun _ => true
  object_klass := 0

/-- C2: meeting two loaded instance-pointer types with unrelated classes
(the classes differ, neither operand is a meet-subtype of the other, and
neither operand's null-ness state sits above the centerline; instance
pointers never carry the `Null` state, per the constructor assert at
type.cpp:3957) takes the LCA path of `TypePtr::meet_instptr`: the resulting
klass is the least common ancestor of the two classes, the result is not
exact, the interface set is the intersection of the operands' interface
sets, and the null-ness state — entering as `meet_ptr` of the operands — is
forced from `TopPTR`/`AnyNull`/`Constant` down to `NotNull`, so the result
always ends below the centerline (at least `NotNull`). -/
theorem TypePtr.meet_instptr_unrelated_lca (cha : CHA) (t1 t2 : TypeInstPtrS)
    (ifc0 : List Nat)
    (hl1 : cha.is_loaded t1.klass = true) (hl2 : cha.is_loaded t2.klass = true)
    (hne : t1.klass ≠ t2.klass)
    (hms1 : TypeInstPtrS.is_meet_subtype_of cha t1 t2 = false)
    (hms2 : TypeInstPtrS.is_meet_subtype_of cha t2 t1 = false)
    (hac1 : above_centerline t1.ptr = false)
    (hac2 : above_centerline t2.ptr = false)
    (hn1 : t1.ptr ≠ PTR.Null) (hn2 : t2.ptr ≠ PTR.Null) :
    TypePtr.meet_instptr cha (TypePtr.ptr_meet t1.ptr t2.ptr) ifc0 t1 t2 =
      ⟨MeetResult.LCA,
       if TypePtr.ptr_meet t1.ptr t2.ptr = PTR.Constant then PTR.NotNull
       else TypePtr.ptr_meet t1.ptr t2.ptr,
       TypeInterfaces.intersection_with t1.interfaces t2.interfaces,
       some (cha.least_common_ancestor t1.klass t2.klass),
       false⟩ ∧
    below_centerline (TypePtr.meet_instptr cha (TypePtr.ptr_meet t1.ptr t2.ptr)
      ifc0 t1 t2).ptr = true := by
  have hsame := TypeInstPtrS.is_same_java_type_as_of_ne cha t1 t2 hne
  have hmeet : TypePtr.ptr_meet t1.ptr t2.ptr = PTR.Constant ∨
      TypePtr.ptr_meet t1.ptr t2.ptr = PTR.NotNull ∨
      TypePtr.ptr_meet t1.ptr t2.ptr = PTR.BotPTR := by
    cases h1 : t1.ptr <;> cases h2 : t2.ptr <;>
      simp_all [TypePtr.ptr_meet, above_centerline]
  have hred : TypePtr.meet_instptr cha (TypePtr.ptr_meet t1.ptr t2.ptr) ifc0 t1 t2 =
      ⟨MeetResult.LCA,
       if TypePtr.ptr_meet t1.ptr t2.ptr = PTR.TopPTR ∨
          TypePtr.ptr_meet t1.ptr t2.ptr = PTR.AnyNull ∨
          TypePtr.ptr_meet t1.ptr t2.ptr = PTR.Constant then PTR.NotNull
       else TypePtr.ptr_meet t1.ptr t2.ptr,
       TypeInterfaces.intersection_with t1.interfaces t2.interfaces,
       some (cha.least_common_ancestor t1.klass t2.klass),
       false⟩ := by
    unfold TypePtr.meet_instptr
    rw [if_neg (by simp [hne]), if_neg (by simp [hl1, hl2])]
    simp only [hsame, hms1, hms2, Bool.and_false, Bool.if_false_left,
      Bool.and_true, if_false]
    simp [hsame]
  rw [hred]
  rcases hmeet with h | h | h <;> rw [h] <;>
    simp [below_centerline]

theorem TypePtr.meet_instptr_unrelated_lca_witness :
    TypePtr.meet_instptr chaFooBar
        (TypePtr.ptr_meet PTR.NotNull PTR.NotNull) []
        ⟨PTR.NotNull, 1, [5], false⟩ ⟨PTR.NotNull, 2, [6], false⟩ =
      ⟨MeetResult.LCA,
       if TypePtr.ptr_meet PTR.NotNull PTR.NotNull = PTR.Constant then PTR.NotNull
       else TypePtr.ptr_meet PTR.NotNull PTR.NotNull,
       TypeInterfaces.intersection_with [5] [6],
       some (chaFooBar.least_common_ancestor 1 2),
       false⟩ ∧
    below_centerline (TypePtr.meet_instptr chaFooBar
        (TypePtr.ptr_meet PTR.NotNull PTR.NotNull) []
        ⟨PTR.NotNull, 1, [5], false⟩ ⟨PTR.NotNull, 2, [6], false⟩).ptr = true :=
  TypePtr.meet_instptr_unrelated_lca chaFooBar
    ⟨PTR.NotNull, 1, [5], false⟩ ⟨PTR.NotNull, 2, [6], false⟩ []
    (by decide) (by decide) (by decide) (by decide) (by decide)
    (by decide) (by decide) (by decide) (by decide)
